import Mathlib

/-!
# Credential resolution of the OpenFGA Go SDK

A shallow embedding of `credentials/credentials.go` and of the parts of the Go
standard library it calls (`strings`, `net/url`), followed by theorems about it.

Conventions of the embedding

* A Go `string` is a sequence of bytes.  A byte is written as the `Char` with the
  same code, so an ASCII literal denotes the same string in Go and here.  The
  package-level functions take and return `String`; the `net/url` model works on
  the underlying `List Char`.
* A Go pointer is an `Option` of an address, `none` being `nil`.  The objects
  pointed to live in a `Heap`.  Dereferencing `nil` is a run-time panic, which
  the embedding makes explicit as `Except.error Panic.nilDereference`.
* A Go result pair `(value, error)` is a Lean pair whose second component is an
  `Option` (`none` being the `nil` error).
-/

set_option linter.unusedVariables false

/-! ## Package `strings` -/

namespace strings

/-- Model of `strings.IndexByte`: position of the first occurrence of `c`. -/
def IndexByte : List Char → Char → Option Nat
  | [], _ => none
  | x :: xs, c => if x = c then some 0 else (IndexByte xs c).map (· + 1)

/-- Model of `strings.LastIndexByte`: position of the last occurrence of `c`. -/
def LastIndexByte : List Char → Char → Option Nat
  | [], _ => none
  | x :: xs, c =>
    match LastIndexByte xs c with
    | some i => some (i + 1)
    | none => if x = c then some 0 else none

/-- Model of `strings.HasPrefix`. -/
def HasPrefix (s pre : List Char) : Bool := pre.isPrefixOf s

/-- Model of `strings.HasSuffix`. -/
def HasSuffix (s suf : List Char) : Bool := suf.isSuffixOf s

/-- Model of `strings.Index`: position of the first occurrence of `substr`. -/
def Index : List Char → List Char → Option Nat
  | [], substr => if substr = [] then some 0 else none
  | x :: xs, substr =>
    if HasPrefix (x :: xs) substr then some 0 else (Index xs substr).map (· + 1)

/-- Model of `strings.Count` for a one-byte separator. -/
def Count (s : List Char) (c : Char) : Nat := s.count c

/-- Model of `strings.Contains` for a one-byte separator. -/
def Contains (s : List Char) (c : Char) : Bool := s.contains c

/-- Model of `strings.Cut` for a one-byte separator: the text before the first
separator, the text after it, and whether the separator was found. -/
def Cut (s : List Char) (sep : Char) : List Char × List Char × Bool :=
  match IndexByte s sep with
  | some i => (s.take i, s.drop (i + 1), true)
  | none => (s, [], false)

/-- Model of `strings.ToLower` on ASCII text (the only text it is applied to here
is a URL scheme, which consists of ASCII letters, digits, `+`, `-` and `.`). -/
def ToLower (s : List Char) : List Char := s.map Char.toLower

end strings

/-! ## Package `net/url`

The definitions of this section follow `net/url/url.go` of the Go standard
library function by function: `shouldEscape`, `unescape`, `escape`, `getScheme`,
`parse`, `parseAuthority`, `parseHost`, `setPath`, `setFragment`, `EscapedPath`,
`EscapedFragment` and `String`.  `parse` keeps its parameter `viaRequest`, which
`url.Parse` always passes as `false`. -/

namespace url

/-- The `encoding` modes of `net/url`. -/
inductive encoding
  | encodePath
  | encodePathSegment
  | encodeHost
  | encodeZone
  | encodeUserPassword
  | encodeQueryComponent
  | encodeFragment
deriving DecidableEq, Repr

/-- The errors `url.Parse` wraps into a `*url.Error`. -/
inductive ErrorKind
  | invalidControlCharacter
  | emptyURL
  | missingProtocolScheme
  | invalidURIForRequest
  | firstPathSegmentColon
  | EscapeError (s : List Char)
  | InvalidHostError (s : List Char)
  | missingBracket
  | invalidPort (s : List Char)
  | invalidUserinfo
deriving DecidableEq, Repr

/-- Model of `url.Error`: operation, URL text and cause. -/
structure Error where
  Op : String
  URL : List Char
  Err : ErrorKind
deriving DecidableEq, Repr

/-- Model of `url.Userinfo`. -/
structure Userinfo where
  username : List Char
  password : List Char
  passwordSet : Bool
deriving DecidableEq, Repr

/-- Model of `url.URL`. -/
structure URL where
  Scheme : List Char
  Opaque : List Char
  User : Option Userinfo
  Host : List Char
  Path : List Char
  RawPath : List Char
  OmitHost : Bool
  ForceQuery : Bool
  RawQuery : List Char
  Fragment : List Char
  RawFragment : List Char
deriving DecidableEq, Repr

/-- The zero value `new(URL)`. -/
def URL.zero : URL :=
  { Scheme := [], Opaque := [], User := none, Host := [], Path := [], RawPath := [],
    OmitHost := false, ForceQuery := false, RawQuery := [], Fragment := [],
    RawFragment := [] }

/-- ASCII letter test `'a' <= c && c <= 'z' || 'A' <= c && c <= 'Z'`. -/
def isLetter (c : Char) : Bool := ('a' ≤ c && c ≤ 'z') || ('A' ≤ c && c ≤ 'Z')

/-- ASCII digit test `'0' <= c && c <= '9'`. -/
def isDigit (c : Char) : Bool := '0' ≤ c && c ≤ '9'

/-- Model of `ishex`. -/
def ishex (c : Char) : Bool :=
  ('0' ≤ c && c ≤ '9') || ('a' ≤ c && c ≤ 'f') || ('A' ≤ c && c ≤ 'F')

/-- Model of `unhex` (value of a hexadecimal digit). -/
def unhex (c : Char) : Nat :=
  if '0' ≤ c && c ≤ '9' then c.toNat - '0'.toNat
  else if 'a' ≤ c && c ≤ 'f' then c.toNat - 'a'.toNat + 10
  else if 'A' ≤ c && c ≤ 'F' then c.toNat - 'A'.toNat + 10
  else 0

/-- The table `upperhex = "0123456789ABCDEF"`. -/
def upperhex (n : Nat) : Char := "0123456789ABCDEF".toList.getD n '0'

/-- The characters a host may carry unescaped besides letters, digits and marks:
the `switch` of `shouldEscape` for `encodeHost` and `encodeZone`. -/
def hostLiterals : List Char :=
  ['!', '$', '&', Char.ofNat 39, '(', ')', '*', '+', ',', ';', '=', ':', '[', ']', '<', '>',
    Char.ofNat 34]

/-- Model of `shouldEscape`. -/
def shouldEscape (c : Char) (mode : encoding) : Bool :=
  if isLetter c || isDigit c then false
  else if (mode = .encodeHost || mode = .encodeZone) && hostLiterals.contains c then false
  else if ['-', '_', '.', '~'].contains c then false
  else if ['$', '&', '+', ',', '/', ':', ';', '=', '?', '@'].contains c then
    match mode with
    | .encodePath => c == '?'
    | .encodePathSegment => c == '/' || c == ';' || c == ',' || c == '?'
    | .encodeUserPassword => c == '@' || c == '/' || c == '?' || c == ':'
    | .encodeQueryComponent => true
    | .encodeFragment => false
    | _ => true
  else if mode = .encodeFragment && ['!', '(', ')', '*'].contains c then false
  else true

/-- First loop of `unescape`: checks that every `%` starts a well-formed escape
and, for hosts, that no byte needs escaping.  Returns the error, if any. -/
def unescapeCheck (mode : encoding) : List Char → Option ErrorKind
  | [] => none
  | c :: rest =>
    if c = '%' then
      match rest with
      | a :: b :: rest2 =>
        if !ishex a || !ishex b then some (.EscapeError (List.take 3 (c :: rest)))
        else if mode = .encodeHost && unhex a < 8 && [c, a, b] ≠ ['%', '2', '5'] then
          some (.EscapeError [c, a, b])
        else if mode = .encodeZone && [c, a, b] ≠ ['%', '2', '5']
            && Char.ofNat (unhex a * 16 + unhex b) ≠ ' '
            && shouldEscape (Char.ofNat (unhex a * 16 + unhex b)) .encodeHost then
          some (.EscapeError [c, a, b])
        else unescapeCheck mode rest2
      | _ => some (.EscapeError (List.take 3 (c :: rest)))
    else if c = '+' then unescapeCheck mode rest
    else if (mode = .encodeHost || mode = .encodeZone) && c < Char.ofNat 0x80
        && shouldEscape c .encodeHost then
      some (.InvalidHostError [c])
    else unescapeCheck mode rest

/-- Second loop of `unescape`: replaces every `%XY` by the byte it denotes (and
`+` by a space in query components). -/
def unescapeDecode (mode : encoding) : List Char → List Char
  | [] => []
  | c :: rest =>
    if c = '%' then
      match rest with
      | a :: b :: rest2 => Char.ofNat (unhex a * 16 + unhex b) :: unescapeDecode mode rest2
      | _ => c :: rest
    else if c = '+' then
      (if mode = .encodeQueryComponent then ' ' else '+') :: unescapeDecode mode rest
    else c :: unescapeDecode mode rest

/-- Model of `unescape`. -/
def unescape (s : List Char) (mode : encoding) : Except ErrorKind (List Char) :=
  match unescapeCheck mode s with
  | some e => .error e
  | none =>
    if s.count '%' = 0 && !(mode = .encodeQueryComponent && s.contains '+') then .ok s
    else .ok (unescapeDecode mode s)

/-- Second loop of `escape`: the escaped text, byte by byte. -/
def escapeBytes (mode : encoding) : List Char → List Char
  | [] => []
  | c :: rest =>
    if c = ' ' && mode = .encodeQueryComponent then '+' :: escapeBytes mode rest
    else if shouldEscape c mode then
      '%' :: upperhex (c.toNat / 16 % 16) :: upperhex (c.toNat % 16) :: escapeBytes mode rest
    else c :: escapeBytes mode rest

/-- Model of `escape`: the text itself when no byte needs escaping. -/
def escape (s : List Char) (mode : encoding) : List Char :=
  if s.all (fun c => !shouldEscape c mode) then s else escapeBytes mode s

/-- Model of `validEncoded`. -/
def validEncoded (s : List Char) (mode : encoding) : Bool :=
  s.all fun c =>
    if ['!', '$', '&', Char.ofNat 39, '(', ')', '*', '+', ',', ';', '=', ':', '@'].contains c then
      true
    else if c = '[' || c = ']' then true
    else if c = '%' then true
    else !shouldEscape c mode

/-- Model of `stringContainsCTLByte`. -/
def stringContainsCTLByte (s : List Char) : Bool :=
  s.any fun b => b < ' ' || b = Char.ofNat 0x7f

/-- The loop of `getScheme`; `i` is the index of the head of the remaining text. -/
def getSchemeLoop (rawURL : List Char) : Nat → List Char → Except ErrorKind (List Char × List Char)
  | _, [] => .ok ([], rawURL)
  | i, c :: rest =>
    if isLetter c then getSchemeLoop rawURL (i + 1) rest
    else if isDigit c || c = '+' || c = '-' || c = '.' then
      if i = 0 then .ok ([], rawURL) else getSchemeLoop rawURL (i + 1) rest
    else if c = ':' then
      if i = 0 then .error .missingProtocolScheme else .ok (rawURL.take i, rest)
    else .ok ([], rawURL)

/-- Model of `getScheme`: splits `scheme:rest`. -/
def getScheme (rawURL : List Char) : Except ErrorKind (List Char × List Char) :=
  getSchemeLoop rawURL 0 rawURL

/-- Model of `validOptionalPort`. -/
def validOptionalPort (port : List Char) : Bool :=
  match port with
  | [] => true
  | c :: rest => if c ≠ ':' then false else rest.all fun b => !(b < '0' || b > '9')

/-- Model of `validUserinfo`. -/
def validUserinfo (s : List Char) : Bool :=
  s.all fun r =>
    ('A' ≤ r && r ≤ 'Z') || ('a' ≤ r && r ≤ 'z') || ('0' ≤ r && r ≤ '9') ||
    ['-', '.', '_', ':', '~', '!', '$', '&', Char.ofNat 39, '(', ')', '*', '+', ',', ';', '=',
      '%', '@'].contains r

/-- Model of `parseHost`, as in the releases of the library that do not yet check
that the text between brackets is an IPv6 address: a host that starts with `[`
is split at the last `]` and its zone is unescaped in zone mode; any other host
is unescaped in host mode.  Later releases refuse a bracketed host that is not an
IPv6 address and a `[` inside a host; the two agree on hosts without a bracket
and on a bracketed IPv6 address such as `[::1]`, with or without a zone. -/
def parseHost (host : List Char) : Except ErrorKind (List Char) :=
  if strings.HasPrefix host ['['] then
    match strings.LastIndexByte host ']' with
    | none => .error .missingBracket
    | some i =>
      let colonPort := host.drop (i + 1)
      if !validOptionalPort colonPort then .error (.invalidPort colonPort)
      else
        match strings.Index (host.take i) ['%', '2', '5'] with
        | some zone =>
          match unescape (host.take zone) .encodeHost with
          | .error e => .error e
          | .ok host1 =>
            match unescape ((host.take i).drop zone) .encodeZone with
            | .error e => .error e
            | .ok host2 =>
              match unescape (host.drop i) .encodeHost with
              | .error e => .error e
              | .ok host3 => .ok (host1 ++ host2 ++ host3)
        | none => unescape host .encodeHost
  else
    match strings.LastIndexByte host ':' with
    | some i =>
      let colonPort := host.drop i
      if !validOptionalPort colonPort then .error (.invalidPort colonPort)
      else unescape host .encodeHost
    | none => unescape host .encodeHost

/-- Model of `parseAuthority`. -/
def parseAuthority (authority : List Char) : Except ErrorKind (Option Userinfo × List Char) :=
  match strings.LastIndexByte authority '@' with
  | none =>
    match parseHost authority with
    | .error e => .error e
    | .ok host => .ok (none, host)
  | some i =>
    match parseHost (authority.drop (i + 1)) with
    | .error e => .error e
    | .ok host =>
      let userinfo := authority.take i
      if !validUserinfo userinfo then .error .invalidUserinfo
      else if !strings.Contains userinfo ':' then
        match unescape userinfo .encodeUserPassword with
        | .error e => .error e
        | .ok name => .ok (some { username := name, password := [], passwordSet := false }, host)
      else
        match unescape (strings.Cut userinfo ':').1 .encodeUserPassword with
        | .error e => .error e
        | .ok name =>
          match unescape (strings.Cut userinfo ':').2.1 .encodeUserPassword with
          | .error e => .error e
          | .ok pw => .ok (some { username := name, password := pw, passwordSet := true }, host)

/-- Model of `(*URL).setPath`. -/
def URL.setPath (u : URL) (p : List Char) : Except ErrorKind URL :=
  match unescape p .encodePath with
  | .error e => .error e
  | .ok path =>
    if p = escape path .encodePath then .ok { u with Path := path, RawPath := [] }
    else .ok { u with Path := path, RawPath := p }

/-- Model of `(*URL).setFragment`. -/
def URL.setFragment (u : URL) (f : List Char) : Except ErrorKind URL :=
  match unescape f .encodeFragment with
  | .error e => .error e
  | .ok frag =>
    if f = escape frag .encodeFragment then .ok { u with Fragment := frag, RawFragment := [] }
    else .ok { u with Fragment := frag, RawFragment := f }

/-- The part of `parse` after the query has been split off: authority and path. -/
def parseAuthorityAndPath (u : URL) (rest : List Char) (viaRequest : Bool) : Except ErrorKind URL :=
  if (u.Scheme ≠ [] || (!viaRequest && !strings.HasPrefix rest ['/', '/', '/']))
      && strings.HasPrefix rest ['/', '/'] then
    let authority0 := rest.drop 2
    let authority :=
      match strings.IndexByte authority0 '/' with
      | some i => authority0.take i
      | none => authority0
    let rest2 :=
      match strings.IndexByte authority0 '/' with
      | some i => authority0.drop i
      | none => []
    match parseAuthority authority with
    | .error e => .error e
    | .ok (user, host) => URL.setPath { u with User := user, Host := host } rest2
  else if u.Scheme ≠ [] && strings.HasPrefix rest ['/'] then
    URL.setPath { u with OmitHost := true } rest
  else URL.setPath u rest

/-- Model of `parse`. -/
def parse (rawURL : List Char) (viaRequest : Bool) : Except ErrorKind URL :=
  if stringContainsCTLByte rawURL then .error .invalidControlCharacter
  else if rawURL = [] && viaRequest then .error .emptyURL
  else if rawURL = ['*'] then .ok { URL.zero with Path := ['*'] }
  else
    match getScheme rawURL with
    | .error e => .error e
    | .ok (scheme, rest0) =>
      let forceQuery := strings.HasSuffix rest0 ['?'] && strings.Count rest0 '?' = 1
      let rest := if forceQuery then rest0.dropLast else (strings.Cut rest0 '?').1
      let rawQuery := if forceQuery then [] else (strings.Cut rest0 '?').2.1
      let u : URL :=
        { URL.zero with Scheme := strings.ToLower scheme, ForceQuery := forceQuery,
                        RawQuery := rawQuery }
      if !strings.HasPrefix rest ['/'] then
        if u.Scheme ≠ [] then .ok { u with Opaque := rest }
        else if viaRequest then .error .invalidURIForRequest
        else if strings.Contains (strings.Cut rest '/').1 ':' then .error .firstPathSegmentColon
        else parseAuthorityAndPath u rest viaRequest
      else parseAuthorityAndPath u rest viaRequest

/-- Model of `url.Parse`. -/
def Parse (rawURL : List Char) : Except Error URL :=
  let u := (strings.Cut rawURL '#').1
  let frag := (strings.Cut rawURL '#').2.1
  match parse u false with
  | .error e => .error { Op := "parse", URL := u, Err := e }
  | .ok url =>
    if frag = [] then .ok url
    else
      match url.setFragment frag with
      | .error e => .error { Op := "parse", URL := rawURL, Err := e }
      | .ok url2 => .ok url2

/-- Model of `(*Userinfo).String` for a non-nil receiver. -/
def Userinfo.String (ui : Userinfo) : List Char :=
  if ui.passwordSet then
    escape ui.username .encodeUserPassword ++ [':'] ++ escape ui.password .encodeUserPassword
  else escape ui.username .encodeUserPassword

/-- Whether `unescape s mode` succeeds with the result `t`. -/
def unescapesTo (s : List Char) (mode : encoding) (t : List Char) : Bool :=
  match unescape s mode with
  | .ok p => p = t
  | .error _ => false

/-- Model of `(*URL).EscapedPath`. -/
def URL.EscapedPath (u : URL) : List Char :=
  if u.RawPath ≠ [] && validEncoded u.RawPath .encodePath
      && unescapesTo u.RawPath .encodePath u.Path then u.RawPath
  else if u.Path = ['*'] then ['*']
  else escape u.Path .encodePath

/-- Model of `(*URL).EscapedFragment`. -/
def URL.EscapedFragment (u : URL) : List Char :=
  if u.RawFragment ≠ [] && validEncoded u.RawFragment .encodeFragment
      && unescapesTo u.RawFragment .encodeFragment u.Fragment then u.RawFragment
  else escape u.Fragment .encodeFragment

/-- The authority part `(*URL).String` writes after the scheme. -/
def URL.authorityString (u : URL) : List Char :=
  if u.Scheme ≠ [] || u.Host ≠ [] || u.User.isSome then
    if u.OmitHost && u.Host = [] && u.User.isNone then []
    else
      (if u.Host ≠ [] || u.Path ≠ [] || u.User.isSome then ['/', '/'] else [])
      ++ (match u.User with
          | some ui => ui.String ++ ['@']
          | none => [])
      ++ (if u.Host ≠ [] then escape u.Host .encodeHost else [])
  else []

/-- Model of `(*URL).String`. -/
def URL.String (u : URL) : List Char :=
  let buf0 := if u.Scheme ≠ [] then u.Scheme ++ [':'] else []
  let buf1 :=
    if u.Opaque ≠ [] then buf0 ++ u.Opaque
    else
      let buf := buf0 ++ u.authorityString
      let path := u.EscapedPath
      let buf := if path ≠ [] && path.head? ≠ some '/' && u.Host ≠ [] then buf ++ ['/'] else buf
      let buf :=
        if buf = [] && strings.Contains (strings.Cut path '/').1 ':' then buf ++ ['.', '/']
        else buf
      buf ++ path
  let buf2 := if u.ForceQuery || u.RawQuery ≠ [] then buf1 ++ ['?'] ++ u.RawQuery else buf1
  if u.Fragment ≠ [] then buf2 ++ ['#'] ++ u.EscapedFragment else buf2

end url

/-! ## More of package `strings`: `Split` and `TrimSpace` -/

namespace strings

/-- Model of `strings.Split` for a one-byte separator: the pieces between the
separators, in order (one empty piece for the empty string). -/
def Split : List Char → Char → List (List Char)
  | [], _ => [[]]
  | c :: cs, sep =>
    if c = sep then [] :: Split cs sep
    else
      match Split cs sep with
      | hd :: tl => (c :: hd) :: tl
      | [] => [[c]]

/-- The UTF-8 encodings of the runes for which `unicode.IsSpace` holds: the six
ASCII spaces, U+0085, U+00A0, U+1680, U+2000 to U+200A, U+2028, U+2029, U+202F,
U+205F and U+3000. -/
def spaceEncodings : List (List Char) :=
  [[Char.ofNat 0x09], [Char.ofNat 0x0A], [Char.ofNat 0x0B], [Char.ofNat 0x0C], [Char.ofNat 0x0D],
   [Char.ofNat 0x20], [Char.ofNat 0xC2, Char.ofNat 0x85], [Char.ofNat 0xC2, Char.ofNat 0xA0],
   [Char.ofNat 0xE1, Char.ofNat 0x9A, Char.ofNat 0x80]]
  ++ (List.range 11).map (fun k => [Char.ofNat 0xE2, Char.ofNat 0x80, Char.ofNat (0x80 + k)])
  ++ [[Char.ofNat 0xE2, Char.ofNat 0x80, Char.ofNat 0xA8],
      [Char.ofNat 0xE2, Char.ofNat 0x80, Char.ofNat 0xA9],
      [Char.ofNat 0xE2, Char.ofNat 0x80, Char.ofNat 0xAF],
      [Char.ofNat 0xE2, Char.ofNat 0x81, Char.ofNat 0x9F],
      [Char.ofNat 0xE3, Char.ofNat 0x80, Char.ofNat 0x80]]

/-- Number of bytes of the space rune the text starts with, if it starts with one. -/
def leadingSpace (s : List Char) : Option Nat :=
  (spaceEncodings.find? fun enc => enc.isPrefixOf s).map List.length

/-- Removes leading space runes; `fuel` bounds the number of runes removed. -/
def trimLeftSpace : Nat → List Char → List Char
  | 0, s => s
  | fuel + 1, s =>
    match leadingSpace s with
    | some n => trimLeftSpace fuel (s.drop n)
    | none => s

/-- Number of bytes of the space rune the text ends with, if it ends with one. -/
def trailingSpace (s : List Char) : Option Nat :=
  (spaceEncodings.find? fun enc => enc.isSuffixOf s).map List.length

/-- Removes trailing space runes; `fuel` bounds the number of runes removed. -/
def trimRightSpace : Nat → List Char → List Char
  | 0, s => s
  | fuel + 1, s =>
    match trailingSpace s with
    | some n => trimRightSpace fuel (s.take (s.length - n))
    | none => s

/-- Model of `strings.TrimSpace`: the text without leading and trailing runes
satisfying `unicode.IsSpace`. -/
def TrimSpace (s : List Char) : List Char :=
  trimRightSpace s.length (trimLeftSpace s.length s)

end strings

/-! ## Packages `context`, `net/http`, `clientcredentials` -/

namespace context

/-- Keys under which a value is stored in a context; `HTTPClient` is the key
`oauth2.HTTPClient`. -/
inductive Key
  | HTTPClient
  | other (id : Nat)
deriving DecidableEq, Repr

/-- Model of a non-nil `context.Context`: the background context, a context the
caller made, or `context.WithValue` of a parent (the values stored on this code
path are `*http.Client` pointers). -/
inductive Context
  | background
  | caller (id : Nat)
  | withValue (parent : Context) (key : Key) (val : Option Nat)
deriving DecidableEq, Repr

/-- Model of `context.Background`. -/
def Background : Context := .background

/-- Model of `context.WithValue`. -/
def WithValue (parent : Context) (key : Key) (val : Option Nat) : Context :=
  .withValue parent key val

/-- Model of `Context.Value`: the value most recently stored under the key. -/
def Context.Value : Context → Key → Option (Option Nat)
  | .background, _ => none
  | .caller _, _ => none
  | .withValue parent k v, key => if k = key then some v else parent.Value key

end context

namespace retryutils

/-- Modelled from the spec: the declaration of `retryutils.RetryParams` is not
among the sources.  It is the "retry policy" the resolver is given; the resolver
passes it on unread. -/
structure RetryParams where
  MaxRetry : Int
  MinWaitInMs : Int
deriving DecidableEq, Repr

end retryutils

namespace clientcredentials

/-- Modelled from the spec: the declaration of `clientcredentials.RequestConfig`
is not among the sources; these are the two fields lines 117-120 fill in. -/
structure RequestConfig where
  RetryParams : retryutils.RetryParams
  Debug : Bool
deriving DecidableEq, Repr

/-- Modelled from the spec: the declaration of `clientcredentials.Config` is not
among the sources.  It is the configuration handed to the OAuth2
client-credentials component (client id, client secret, token URL, optional
audience, optional scopes), with the fields lines 122-135 fill in.
`EndpointParams` is a `map[string][]string`, written as an association list
(`[]` being the nil map). -/
structure Config where
  ClientID : String
  ClientSecret : String
  TokenURL : String
  Scopes : List String
  EndpointParams : List (String × List String)
  RequestConfig : RequestConfig
deriving DecidableEq, Repr

end clientcredentials

namespace http

/-- Model of an `http.RoundTripper` value: nil (the default transport is used), a
transport of the caller, or the token-refreshing `*oauth2.Transport` with its
inner transport and the token source it was built from. -/
inductive RoundTripper
  | nil
  | caller (id : Nat)
  | oauth2 (base : RoundTripper) (conf : clientcredentials.Config) (ctx : context.Context)
deriving DecidableEq, Repr

/-- Model of `http.Client`.  `CheckRedirect` is a function value and `Jar` an
interface value: `none` is nil, `some i` names the function or object.
`Timeout` is a `time.Duration`. -/
structure Client where
  Transport : RoundTripper
  CheckRedirect : Option Nat
  Jar : Option Nat
  Timeout : Int
deriving DecidableEq, Repr

end http

namespace credentials

/-- Model of the constant `ApiTokenHeaderKey`. -/
def ApiTokenHeaderKey : String := "Authorization"

/-- Model of the constant `ApiTokenHeaderValuePrefix`. -/
def ApiTokenHeaderValuePrefix : String := "Bearer"

/-- Model of `type CredentialsMethod string`. -/
abbrev CredentialsMethod := String

/-- Model of the constant `CredentialsMethodNone`. -/
def CredentialsMethodNone : CredentialsMethod := "none"

/-- Model of the constant `CredentialsMethodApiToken`. -/
def CredentialsMethodApiToken : CredentialsMethod := "api_token"

/-- Model of the constant `CredentialsMethodClientCredentials`. -/
def CredentialsMethodClientCredentials : CredentialsMethod := "client_credentials"

/-- Model of the struct `Config`. -/
structure Config where
  ApiToken : String
  ClientCredentialsApiTokenIssuer : String
  ClientCredentialsApiAudience : String
  ClientCredentialsClientId : String
  ClientCredentialsClientSecret : String
  ClientCredentialsScopes : String
deriving DecidableEq, Repr

/-- Model of the struct `Credentials`: `Config` is a `*Config` (an address in the
heap or nil), `Context` a `context.Context` interface value (nil or a context). -/
structure Credentials where
  Method : CredentialsMethod
  Config : Option Nat
  Context : Option context.Context
deriving DecidableEq, Repr

/-- Model of the struct `HeaderParams`. -/
structure HeaderParams where
  Key : String
  Value : String
deriving DecidableEq, Repr

/-- A run-time panic. -/
inductive Panic
  | nilDereference
deriving DecidableEq, Repr

/-- The non-nil `error` values of the package: an error of `url.Parse`, and the
three `fmt.Errorf` errors, each with the argument it formats. -/
inductive GoError
  | parseError (e : url.Error)
  | invalidIssuerScheme (scheme : String)
  | apiTokenRequired (method : CredentialsMethod)
  | clientCredentialsRequired (method : CredentialsMethod)
deriving DecidableEq, Repr

/-- The objects reachable through pointers: every address holds a `Config` and an
`http.Client` (Go has no dangling pointers); the client addresses below
`nextClient` are the ones allocated so far. -/
structure Heap where
  configs : Nat → Config
  clients : Nat → http.Client
  nextClient : Nat

/-- Writes a `Config` through a pointer. -/
def Heap.setConfig (h : Heap) (p : Nat) (v : Config) : Heap :=
  { h with configs := fun a => if a = p then v else h.configs a }

/-- Writes an `http.Client` through a pointer. -/
def Heap.setClient (h : Heap) (p : Nat) (v : http.Client) : Heap :=
  { h with clients := fun a => if a = p then v else h.clients a }

/-- Allocation `&http.Client{...}`: the new object gets an address not in use. -/
def Heap.newClient (h : Heap) (v : http.Client) : Nat × Heap :=
  (h.nextClient,
   { h with clients := fun a => if a = h.nextClient then v else h.clients a,
            nextClient := h.nextClient + 1 })

/-- Model of the variable `defaultTokenEndpointPath`. -/
def defaultTokenEndpointPath : String := "oauth/token"

/-- Model of `buildApiTokenURL` (lines 180-194).  The result of the second
`url.Parse` is used without looking at its error, so a failure there leaves `u`
nil and `u.Path` panics. -/
def buildApiTokenURL (issuer : String) : Except Panic (String × Option GoError) :=
  match url.Parse issuer.data with
  | .error err => .ok ("", some (.parseError err))
  | .ok u0 =>
    let u : Except GoError (Option url.URL) :=
      if u0.Scheme = [] then .ok (url.Parse ("https://" ++ issuer).data).toOption
      else if u0.Scheme ≠ "http".data && u0.Scheme ≠ "https".data then
        .error (.invalidIssuerScheme (String.mk u0.Scheme))
      else .ok (some u0)
    match u with
    | .error err => .ok ("", some err)
    | .ok none => .error .nilDereference
    | .ok (some u) =>
      if u.Path = [] || u.Path = ['/'] then
        .ok (String.mk ({ u with Path := defaultTokenEndpointPath.data }).String, none)
      else .ok (String.mk u.String, none)

/-- Model of `(*Credentials).ValidateCredentialsConfig` (lines 64-83): the error
returned and the heap afterwards. -/
def Credentials.ValidateCredentialsConfig (c : Credentials) (h : Heap) :
    Except Panic (Option GoError × Heap) :=
  let conf := c.Config
  if c.Method = CredentialsMethodApiToken &&
      (match conf with
       | none => true
       | some p => decide ((h.configs p).ApiToken = "")) then
    .ok (some (.apiTokenRequired c.Method), h)
  else if c.Method = CredentialsMethodClientCredentials then
    match conf with
    | none => .ok (some (.clientCredentialsRequired c.Method), h)
    | some p =>
      if (h.configs p).ClientCredentialsClientId = "" ||
          (h.configs p).ClientCredentialsClientSecret = "" ||
          (h.configs p).ClientCredentialsApiTokenIssuer = "" then
        .ok (some (.clientCredentialsRequired c.Method), h)
      else
        match buildApiTokenURL (h.configs p).ClientCredentialsApiTokenIssuer with
        | .error e => .error e
        | .ok (_, some err) => .ok (some err, h)
        | .ok (tokenURL, none) =>
          .ok (none, h.setConfig p { h.configs p with ClientCredentialsApiTokenIssuer := tokenURL })
  else .ok (none, h)

/-- Model of `NewCredentials` (lines 45-62): the pair returned (the new
`*Credentials`, by value, or nil; the error) and the heap afterwards. -/
def NewCredentials (config : Credentials) (h : Heap) :
    Except Panic ((Option Credentials × Option GoError) × Heap) :=
  let creds : Credentials := { Method := config.Method, Config := config.Config, Context := none }
  let creds : Credentials :=
    if creds.Method = "" then { creds with Method := CredentialsMethodNone } else creds
  match creds.ValidateCredentialsConfig h with
  | .error e => .error e
  | .ok (some err, h2) => .ok ((none, some err), h2)
  | .ok (none, h2) => .ok ((some creds, none), h2)

/-- Model of `(*Credentials).GetApiTokenHeader` (lines 90-99). -/
def Credentials.GetApiTokenHeader (c : Credentials) (h : Heap) :
    Except Panic (Option HeaderParams) :=
  if c.Method ≠ CredentialsMethodApiToken then .ok none
  else
    match c.Config with
    | none => .error .nilDereference
    | some p =>
      .ok (some { Key := ApiTokenHeaderKey,
                  Value := ApiTokenHeaderValuePrefix ++ " " ++ (h.configs p).ApiToken })

end credentials

namespace clientcredentials

/-- Modelled from the spec: `(*clientcredentials.Config).Client` and the
`oauth2.NewClient` it calls are not among the sources.  The spec (section 4.3)
has it return a newly constructed OAuth2 token-refreshing transport, whose inner
layer is the caller's transport when a base client travels in the context under
`oauth2.HTTPClient`, and its own default transport otherwise; the comment at
lines 148-149 adds that the new `http.Client` carries only the `Transport` from
the base, so its other settings are the zero values. -/
def Config.Client (c : Config) (ctx : context.Context) (h : credentials.Heap) :
    Option Nat × credentials.Heap :=
  let base : http.RoundTripper :=
    match ctx.Value .HTTPClient with
    | some (some p) => (h.clients p).Transport
    | _ => .nil
  let fresh : http.Client :=
    { Transport := .oauth2 base c ctx, CheckRedirect := none, Jar := none, Timeout := 0 }
  (some (h.newClient fresh).1, (h.newClient fresh).2)

end clientcredentials

namespace credentials

/-- What a call of the resolver leaves behind: the two values returned, the
receiver `*c` after the call, and the heap after the call. -/
structure Resolution where
  client : Option Nat
  headers : List HeaderParams
  receiver : Credentials
  heap : Heap

/-- The `clientcredentials.Config` built at lines 117-136.  The value returned by
`requestConfig.New(requestConfig)` at line 121 is discarded. -/
def ccConfigOf (conf : Config) (retryParams : retryutils.RetryParams) (debug : Bool) :
    clientcredentials.Config :=
  let requestConfig : clientcredentials.RequestConfig := { RetryParams := retryParams, Debug := debug }
  let ccConfig : clientcredentials.Config :=
    { ClientID := conf.ClientCredentialsClientId,
      ClientSecret := conf.ClientCredentialsClientSecret,
      TokenURL := conf.ClientCredentialsApiTokenIssuer,
      Scopes := [],
      EndpointParams := [],
      RequestConfig := requestConfig }
  let ccConfig :=
    if conf.ClientCredentialsApiAudience ≠ "" then
      { ccConfig with EndpointParams := [("audience", [conf.ClientCredentialsApiAudience])] }
    else ccConfig
  if conf.ClientCredentialsScopes ≠ "" then
    { ccConfig with
      Scopes := ccConfig.Scopes ++
        (strings.Split (strings.TrimSpace conf.ClientCredentialsScopes.data) ' ').map String.mk }
  else ccConfig

/-- The copy of `Timeout`, `CheckRedirect` and `Jar` at lines 150-158. -/
def copySettings (base client : http.Client) : http.Client :=
  let client := if base.Timeout ≠ 0 then { client with Timeout := base.Timeout } else client
  let client :=
    if base.CheckRedirect ≠ none then { client with CheckRedirect := base.CheckRedirect }
    else client
  if base.Jar ≠ none then { client with Jar := base.Jar } else client

/-- Model of `(*Credentials).GetHttpClientAndHeaderOverridesWithBaseClient`
(lines 112-176). -/
def Credentials.GetHttpClientAndHeaderOverridesWithBaseClient (c : Credentials)
    (retryParams : retryutils.RetryParams) (debug : Bool) (baseClient : Option Nat) (h : Heap) :
    Except Panic Resolution :=
  if c.Method = CredentialsMethodClientCredentials then
    match c.Config with
    | none => .error .nilDereference
    | some p =>
      let ccConfig := ccConfigOf (h.configs p) retryParams debug
      let ctx0 : context.Context :=
        match c.Context with
        | none => context.Background
        | some x => x
      let c1 : Credentials := { c with Context := some ctx0 }
      match baseClient with
      | some b =>
        let ctx := context.WithValue ctx0 .HTTPClient (some b)
        match ccConfig.Client ctx h with
        | (none, _) => .error .nilDereference
        | (some client, h1) =>
          .ok { client := some client, headers := [], receiver := c1,
                heap := h1.setClient client (copySettings (h1.clients b) (h1.clients client)) }
      | none =>
        .ok { client := (ccConfig.Client ctx0 h).1, headers := [], receiver := c1,
              heap := (ccConfig.Client ctx0 h).2 }
  else if c.Method = CredentialsMethodApiToken then
    match c.GetApiTokenHeader h with
    | .error e => .error e
    | .ok (some header) => .ok { client := baseClient, headers := [header], receiver := c, heap := h }
    | .ok none => .ok { client := baseClient, headers := [], receiver := c, heap := h }
  else if c.Method = CredentialsMethodNone then
    .ok { client := baseClient, headers := [], receiver := c, heap := h }
  else .ok { client := baseClient, headers := [], receiver := c, heap := h }

/-- Model of `(*Credentials).GetHttpClientAndHeaderOverrides` (lines 104-106). -/
def Credentials.GetHttpClientAndHeaderOverrides (c : Credentials)
    (retryParams : retryutils.RetryParams) (debug : Bool) (h : Heap) : Except Panic Resolution :=
  c.GetHttpClientAndHeaderOverridesWithBaseClient retryParams debug none h

end credentials

namespace credentials

/-- A heap in which every `Config` address holds `conf`, every client address
holds `client`, and the first `n` client addresses are in use. -/
def Heap.uniform (conf : Config) (client : http.Client) (n : Nat) : Heap :=
  { configs := fun _ => conf, clients := fun _ => client, nextClient := n }

/-- The zero value `Config{}`. -/
def Config.zero : Config :=
  { ApiToken := "", ClientCredentialsApiTokenIssuer := "", ClientCredentialsApiAudience := "",
    ClientCredentialsClientId := "", ClientCredentialsClientSecret := "",
    ClientCredentialsScopes := "" }

/-- The zero value `http.Client{}`. -/
def zeroClient : http.Client :=
  { Transport := .nil, CheckRedirect := none, Jar := none, Timeout := 0 }

/-- The client of the tests: `&http.Client{Timeout: 30 * time.Second}`. -/
def customClient : http.Client :=
  { Transport := .nil, CheckRedirect := none, Jar := none, Timeout := 30000000000 }

/-- The client-credentials `Config` of the tests. -/
def testClientCredentialsConfig : Config :=
  { Config.zero with
    ClientCredentialsClientId := "test-client-id",
    ClientCredentialsClientSecret := "test-client-secret",
    ClientCredentialsApiAudience := "https://api.test.example/",
    ClientCredentialsApiTokenIssuer := "issuer.test.example" }

/-- The API-token `Config` of the tests. -/
def testApiTokenConfig : Config := { Config.zero with ApiToken := "test-api-token" }

/-- A retry policy to run the examples with. -/
def testRetryParams : retryutils.RetryParams := { MaxRetry := 3, MinWaitInMs := 100 }

end credentials

/-! ## The client configuration composer (package `openfga`) -/

namespace openfga

/-- Modelled from the spec: the declaration of `Configuration` is not among the
sources.  Sections 3 and 6 of the spec give the client configuration a base URL,
an optional caller-supplied transport, optional Credentials and an optional
default header mapping; the tests name the fields `ApiUrl`, `HTTPClient`,
`Credentials` and `DefaultHeaders`.  The mapping is an association list, `none`
being the nil map. -/
structure Configuration where
  ApiUrl : String
  HTTPClient : Option Nat
  Credentials : Option credentials.Credentials
  DefaultHeaders : Option (List (String × String))

/-- Modelled from the spec: the merge of one header override into the default
header mapping, which is not among the sources.  Section 4.4 has the override win
on a key collision. -/
def addDefaultHeader (m : List (String × String)) (hd : credentials.HeaderParams) :
    List (String × String) :=
  (hd.Key, hd.Value) :: m.filter (fun kv => kv.1 ≠ hd.Key)

/-- Modelled from the spec: `NewAPIClient`, the client configuration composer, is
not among the sources.  Section 4.4 of the spec: (1) with no Credentials the
caller's transport is used unchanged and there are no header overrides; (2) with
Credentials the resolver is called with the caller's transport (possibly nil) as
base, the returned transport replaces the configuration's transport and the
returned header overrides are merged into the default header mapping, which is
created if it was nil; (3) a default transport is constructed as a last resort,
so that the transport is never nil on return.  The retry policy and the debug
flag handed to the resolver, which the spec does not place, are parameters.  The
result is the finished configuration and the heap. -/
def NewAPIClient (cfg : Configuration) (retryParams : retryutils.RetryParams) (debug : Bool)
    (h : credentials.Heap) : Except credentials.Panic (Configuration × credentials.Heap) :=
  let composed : Except credentials.Panic (Configuration × credentials.Heap) :=
    match cfg.Credentials with
    | none => .ok (cfg, h)
    | some creds =>
      match creds.GetHttpClientAndHeaderOverridesWithBaseClient retryParams debug cfg.HTTPClient h with
      | .error e => .error e
      | .ok r =>
        .ok ({ cfg with
               HTTPClient := r.client,
               Credentials := some r.receiver,
               DefaultHeaders := some (r.headers.foldl addDefaultHeader (cfg.DefaultHeaders.getD [])) },
             r.heap)
  match composed with
  | .error e => .error e
  | .ok (cfg1, h1) =>
    match cfg1.HTTPClient with
    | some _ => .ok (cfg1, h1)
    | none =>
      .ok ({ cfg1 with HTTPClient := some (h1.newClient credentials.zeroClient).1 },
           (h1.newClient credentials.zeroClient).2)

end openfga

/-! ## Classes of issuer text used in the statements -/

namespace url

/-- The bytes of a plain host name: ASCII letters, digits, `-` and `.`. -/
def isHostNameByte (c : Char) : Bool := isLetter c || isDigit c || c = '-' || c = '.'

/-- The bytes of a path that needs no escaping: ASCII letters, digits, the marks
`-_.~` and the reserved characters `$&+,/:;=@`. -/
def isPlainPathByte (c : Char) : Bool :=
  isLetter c || isDigit c ||
    ['-', '_', '.', '~', '$', '&', '+', ',', '/', ':', ';', '=', '@'].contains c

end url

namespace credentials

/-- The issuers in plain form: a bare host name (non-empty, made of ASCII
letters, digits, `-` and `.`), or `scheme://host`, an optional `:port` and a
path, with the scheme "http" or "https" in lower case, such a host name, a port
made of digits, and a path that is empty or starts with `/` and is made of bytes
that need no escaping. -/
def IsPlainIssuer (issuer : String) : Prop :=
  (issuer ≠ "" ∧ ∀ c ∈ issuer.data, url.isHostNameByte c = true) ∨
  ∃ scheme host port path : String,
    issuer = scheme ++ "://" ++ host ++ port ++ path ∧
    (scheme = "http" ∨ scheme = "https") ∧ host ≠ "" ∧
    (∀ c ∈ host.data, url.isHostNameByte c = true) ∧
    url.validOptionalPort port.data = true ∧
    (∀ c ∈ path.data, url.isPlainPathByte c = true) ∧
    (path = "" ∨ path.data.head? = some '/')

end credentials

/-! ## Theorems: the credential resolver and validation -/

namespace credentials

theorem method_apiToken_ne_clientCredentials :
    CredentialsMethodApiToken ≠ CredentialsMethodClientCredentials := by decide

theorem method_none_ne_clientCredentials :
    CredentialsMethodNone ≠ CredentialsMethodClientCredentials := by decide

theorem method_none_ne_apiToken : CredentialsMethodNone ≠ CredentialsMethodApiToken := by decide

/-- C1, as stated, fails: with method client_credentials and a nil Config, the
resolver called with a non-nil base client dereferences the nil Config (line
123) and returns nothing. -/
theorem C1_counterexample :
    Credentials.GetHttpClientAndHeaderOverridesWithBaseClient
        (Credentials.mk CredentialsMethodClientCredentials none none) testRetryParams false
        (some 0) (Heap.uniform Config.zero customClient 1)
      = .error .nilDereference ∧
    ∀ r, Credentials.GetHttpClientAndHeaderOverridesWithBaseClient
        (Credentials.mk CredentialsMethodClientCredentials none none) testRetryParams false
        (some 0) (Heap.uniform Config.zero customClient 1) ≠ .ok r := by
  refine ⟨rfl, ?_⟩
  intro r hr
  have h1 : Credentials.GetHttpClientAndHeaderOverridesWithBaseClient
      (Credentials.mk CredentialsMethodClientCredentials none none) testRetryParams false
      (some 0) (Heap.uniform Config.zero customClient 1) = .error .nilDereference := rfl
  rw [h1] at hr
  cases hr

/-- C1, amended: for every Credentials with method client_credentials whose
Config is non-nil, and every non-nil base client, the resolver returns a newly
allocated client, different from the base client, and no header overrides; the
base client is left as it was, and the returned client's Timeout, CheckRedirect
and Jar equal the base client's whenever the base client's value is non-zero,
respectively non-nil. -/
theorem C1_client_credentials_wraps_base_client (c : Credentials)
    (retryParams : retryutils.RetryParams) (debug : Bool) (b p : Nat) (h : Heap)
    (hm : c.Method = CredentialsMethodClientCredentials) (hc : c.Config = some p)
    (hb : b < h.nextClient) :
    ∃ r client,
      c.GetHttpClientAndHeaderOverridesWithBaseClient retryParams debug (some b) h = .ok r ∧
      r.client = some client ∧ client ≠ b ∧ r.headers = [] ∧
      r.heap.clients b = h.clients b ∧
      ((h.clients b).Timeout ≠ 0 → (r.heap.clients client).Timeout = (h.clients b).Timeout) ∧
      ((h.clients b).CheckRedirect ≠ none →
        (r.heap.clients client).CheckRedirect = (h.clients b).CheckRedirect) ∧
      ((h.clients b).Jar ≠ none → (r.heap.clients client).Jar = (h.clients b).Jar) := by
  have hne : h.nextClient ≠ b := by omega
  have hne2 : b ≠ h.nextClient := by omega
  simp only [Credentials.GetHttpClientAndHeaderOverridesWithBaseClient, hm, hc,
    clientcredentials.Config.Client, Heap.newClient, if_true]
  refine ⟨_, h.nextClient, rfl, rfl, hne, rfl, ?_, ?_, ?_, ?_⟩
  · simp [Heap.setClient, hne2]
  · intro ht
    simp [Heap.setClient, hne2, copySettings, ht]
    split <;> split <;> rfl
  · intro ht
    simp [Heap.setClient, hne2, copySettings, ht]
    split <;> rfl
  · intro ht
    simp [Heap.setClient, hne2, copySettings, ht]

/-- Witness of C1 (amended): the client-credentials test, a base client with a 30 second timeout. -/
theorem C1_witness :
    ∃ r client,
      Credentials.GetHttpClientAndHeaderOverridesWithBaseClient
        { Method := CredentialsMethodClientCredentials, Config := some 0, Context := none }
        testRetryParams false (some 0) (Heap.uniform testClientCredentialsConfig customClient 1)
        = .ok r ∧
      r.client = some client ∧ client ≠ 0 ∧ r.headers = [] ∧
      r.heap.clients 0 = (Heap.uniform testClientCredentialsConfig customClient 1).clients 0 ∧
      (((Heap.uniform testClientCredentialsConfig customClient 1).clients 0).Timeout ≠ 0 →
        (r.heap.clients client).Timeout
          = ((Heap.uniform testClientCredentialsConfig customClient 1).clients 0).Timeout) ∧
      (((Heap.uniform testClientCredentialsConfig customClient 1).clients 0).CheckRedirect ≠ none →
        (r.heap.clients client).CheckRedirect
          = ((Heap.uniform testClientCredentialsConfig customClient 1).clients 0).CheckRedirect) ∧
      (((Heap.uniform testClientCredentialsConfig customClient 1).clients 0).Jar ≠ none →
        (r.heap.clients client).Jar
          = ((Heap.uniform testClientCredentialsConfig customClient 1).clients 0).Jar) :=
  C1_client_credentials_wraps_base_client
    { Method := CredentialsMethodClientCredentials, Config := some 0, Context := none }
    testRetryParams false 0 0 (Heap.uniform testClientCredentialsConfig customClient 1)
    rfl rfl (by decide)

end credentials

namespace credentials

/-- C2: for every Credentials with method api_token that passed validation, and
every base client, the resolver returns that very base client and exactly one
header override, with key "Authorization" and value "Bearer " followed by the
(non-empty) token; nothing else changes. -/
theorem C2_api_token_keeps_base_client_and_adds_bearer_header (c : Credentials)
    (retryParams : retryutils.RetryParams) (debug : Bool) (baseClient : Option Nat) (h h2 : Heap)
    (hm : c.Method = CredentialsMethodApiToken)
    (hv : c.ValidateCredentialsConfig h = .ok (none, h2)) :
    ∃ p, c.Config = some p ∧ (h2.configs p).ApiToken ≠ "" ∧
      c.GetHttpClientAndHeaderOverridesWithBaseClient retryParams debug baseClient h2
        = .ok { client := baseClient,
                headers := [{ Key := "Authorization",
                              Value := "Bearer " ++ (h2.configs p).ApiToken }],
                receiver := c, heap := h2 } := by
  have hne := method_apiToken_ne_clientCredentials
  cases hcfg : c.Config with
  | none =>
    simp [Credentials.ValidateCredentialsConfig, hm, hcfg] at hv
  | some p =>
    simp only [Credentials.ValidateCredentialsConfig, hm, hcfg, hne, if_false] at hv
    by_cases ht : (h.configs p).ApiToken = ""
    · simp [ht] at hv
    · simp [ht] at hv
      subst hv
      refine ⟨p, rfl, ht, ?_⟩
      simp [Credentials.GetHttpClientAndHeaderOverridesWithBaseClient,
        Credentials.GetApiTokenHeader, hm, hcfg, hne, ApiTokenHeaderKey,
        ApiTokenHeaderValuePrefix]

/-- Witness of C2: the API-token test, with a supplied base client. -/
theorem C2_witness :
    ∃ p, (Credentials.mk CredentialsMethodApiToken (some 0) none).Config = some p ∧
      ((Heap.uniform testApiTokenConfig customClient 1).configs p).ApiToken ≠ "" ∧
      Credentials.GetHttpClientAndHeaderOverridesWithBaseClient
        (Credentials.mk CredentialsMethodApiToken (some 0) none) testRetryParams false (some 0)
        (Heap.uniform testApiTokenConfig customClient 1)
        = .ok { client := some 0,
                headers := [{ Key := "Authorization",
                              Value := "Bearer " ++
                                ((Heap.uniform testApiTokenConfig customClient 1).configs p).ApiToken }],
                receiver := Credentials.mk CredentialsMethodApiToken (some 0) none,
                heap := Heap.uniform testApiTokenConfig customClient 1 } :=
  C2_api_token_keeps_base_client_and_adds_bearer_header
    (Credentials.mk CredentialsMethodApiToken (some 0) none) testRetryParams false (some 0)
    (Heap.uniform testApiTokenConfig customClient 1) (Heap.uniform testApiTokenConfig customClient 1)
    rfl rfl

/-- C3: for every Credentials with method none and every base client, nil
included, the resolver returns exactly that base client and an empty list of
header overrides, and changes nothing. -/
theorem C3_none_returns_base_client_unchanged (c : Credentials)
    (retryParams : retryutils.RetryParams) (debug : Bool) (baseClient : Option Nat) (h : Heap)
    (hm : c.Method = CredentialsMethodNone) :
    c.GetHttpClientAndHeaderOverridesWithBaseClient retryParams debug baseClient h
      = .ok { client := baseClient, headers := [], receiver := c, heap := h } := by
  simp [Credentials.GetHttpClientAndHeaderOverridesWithBaseClient, hm,
    method_none_ne_clientCredentials, method_none_ne_apiToken]

/-- Witness of C3: method none with a nil Config and a nil base client. -/
theorem C3_witness :
    Credentials.GetHttpClientAndHeaderOverridesWithBaseClient
      (Credentials.mk CredentialsMethodNone none none) testRetryParams false none
      (Heap.uniform Config.zero zeroClient 0)
      = .ok { client := none, headers := [],
              receiver := Credentials.mk CredentialsMethodNone none none,
              heap := Heap.uniform Config.zero zeroClient 0 } :=
  C3_none_returns_base_client_unchanged (Credentials.mk CredentialsMethodNone none none)
    testRetryParams false none (Heap.uniform Config.zero zeroClient 0) rfl

/-- C4, as stated, fails: with method none and no base client the resolver
returns a nil client. -/
theorem C4_counterexample :
    ∃ r, Credentials.GetHttpClientAndHeaderOverrides
          (Credentials.mk CredentialsMethodNone none none) testRetryParams false
          (Heap.uniform Config.zero zeroClient 0) = .ok r ∧
      r.client = none :=
  ⟨_, rfl, rfl⟩

/-- C4, amended: resolving with no base client returns a non-nil, newly allocated
client for method client_credentials (Config present); for method none, and for
method api_token (Config present), it returns the nil base client. -/
theorem C4_no_base_client (c : Credentials) (retryParams : retryutils.RetryParams)
    (debug : Bool) (h : Heap) :
    (c.Method = CredentialsMethodClientCredentials → c.Config ≠ none →
      ∃ r, c.GetHttpClientAndHeaderOverrides retryParams debug h = .ok r ∧
        r.client = some h.nextClient ∧ r.client ≠ none ∧ r.heap.nextClient = h.nextClient + 1) ∧
    (c.Method = CredentialsMethodNone →
      ∃ r, c.GetHttpClientAndHeaderOverrides retryParams debug h = .ok r ∧ r.client = none) ∧
    (c.Method = CredentialsMethodApiToken → c.Config ≠ none →
      ∃ r, c.GetHttpClientAndHeaderOverrides retryParams debug h = .ok r ∧ r.client = none) := by
  refine ⟨?_, ?_, ?_⟩
  · intro hm hc
    obtain ⟨p, hp⟩ := Option.ne_none_iff_exists'.mp hc
    simp only [Credentials.GetHttpClientAndHeaderOverrides,
      Credentials.GetHttpClientAndHeaderOverridesWithBaseClient, hm, hp,
      clientcredentials.Config.Client, Heap.newClient, if_true]
    exact ⟨_, rfl, rfl, by simp, rfl⟩
  · intro hm
    simp [Credentials.GetHttpClientAndHeaderOverrides,
      Credentials.GetHttpClientAndHeaderOverridesWithBaseClient, hm,
      method_none_ne_clientCredentials, method_none_ne_apiToken]
  · intro hm hc
    obtain ⟨p, hp⟩ := Option.ne_none_iff_exists'.mp hc
    simp [Credentials.GetHttpClientAndHeaderOverrides,
      Credentials.GetHttpClientAndHeaderOverridesWithBaseClient, Credentials.GetApiTokenHeader,
      hm, hp, method_apiToken_ne_clientCredentials]

/-- Witness of C4 (amended): the credentials-only test gets a non-nil client. -/
theorem C4_witness :
    ∃ r, Credentials.GetHttpClientAndHeaderOverrides
          (Credentials.mk CredentialsMethodClientCredentials (some 0) none) testRetryParams false
          (Heap.uniform testClientCredentialsConfig zeroClient 0) = .ok r ∧
      r.client = some (Heap.uniform testClientCredentialsConfig zeroClient 0).nextClient ∧
      r.client ≠ none ∧
      r.heap.nextClient = (Heap.uniform testClientCredentialsConfig zeroClient 0).nextClient + 1 :=
  (C4_no_base_client (Credentials.mk CredentialsMethodClientCredentials (some 0) none)
    testRetryParams false (Heap.uniform testClientCredentialsConfig zeroClient 0)).1 rfl (by simp)

/-- C5, as stated, fails: with method api_token and a nil Config, resolving with
a nil base client dereferences the nil Config in `GetApiTokenHeader`. -/
theorem C5_counterexample :
    Credentials.GetApiTokenHeader (Credentials.mk CredentialsMethodApiToken none none)
        (Heap.uniform Config.zero zeroClient 0) = .error .nilDereference ∧
      (∀ r, Credentials.GetHttpClientAndHeaderOverridesWithBaseClient
          (Credentials.mk CredentialsMethodApiToken none none) testRetryParams false none
          (Heap.uniform Config.zero zeroClient 0) ≠ .ok r) ∧
      (∀ r, Credentials.GetHttpClientAndHeaderOverridesWithBaseClient
          (Credentials.mk CredentialsMethodClientCredentials none none) testRetryParams false none
          (Heap.uniform Config.zero zeroClient 0) ≠ .ok r) := by
  refine ⟨rfl, ?_, ?_⟩
  · intro r hr
    have h1 : Credentials.GetHttpClientAndHeaderOverridesWithBaseClient
          (Credentials.mk CredentialsMethodApiToken none none) testRetryParams false none
          (Heap.uniform Config.zero zeroClient 0) = .error .nilDereference := rfl
    rw [h1] at hr
    cases hr
  · intro r hr
    have h1 : Credentials.GetHttpClientAndHeaderOverridesWithBaseClient
          (Credentials.mk CredentialsMethodClientCredentials none none) testRetryParams false none
          (Heap.uniform Config.zero zeroClient 0) = .error .nilDereference := rfl
    rw [h1] at hr
    cases hr

/-- C5, amended: resolving with a nil base client never crashes when the Config
is non-nil, nor when the method is neither api_token nor client_credentials
(whatever the Config, nil included): both `GetApiTokenHeader` and the resolver
return. -/
theorem C5_no_nil_dereference (c : Credentials) (retryParams : retryutils.RetryParams)
    (debug : Bool) (h : Heap)
    (hc : c.Config ≠ none ∨
      (c.Method ≠ CredentialsMethodApiToken ∧ c.Method ≠ CredentialsMethodClientCredentials)) :
    (∃ hd, c.GetApiTokenHeader h = .ok hd) ∧
    (∃ r, c.GetHttpClientAndHeaderOverridesWithBaseClient retryParams debug none h = .ok r) := by
  rcases hc with hc | ⟨h1, h2⟩
  · obtain ⟨p, hp⟩ := Option.ne_none_iff_exists'.mp hc
    refine ⟨?_, ?_⟩
    · by_cases hm : c.Method = CredentialsMethodApiToken <;>
        simp [Credentials.GetApiTokenHeader, hm, hp]
    · by_cases hm2 : c.Method = CredentialsMethodClientCredentials
      · simp [Credentials.GetHttpClientAndHeaderOverridesWithBaseClient, hm2, hp]
      · by_cases hm : c.Method = CredentialsMethodApiToken
        · simp [Credentials.GetHttpClientAndHeaderOverridesWithBaseClient,
            Credentials.GetApiTokenHeader, hm, hp, method_apiToken_ne_clientCredentials]
        · simp [Credentials.GetHttpClientAndHeaderOverridesWithBaseClient, hm, hm2]
  · refine ⟨?_, ?_⟩
    · simp [Credentials.GetApiTokenHeader, h1]
    · simp [Credentials.GetHttpClientAndHeaderOverridesWithBaseClient, h1, h2]

/-- Witness of C5 (amended): method none with a nil Config. -/
theorem C5_witness :
    (∃ hd, Credentials.GetApiTokenHeader (Credentials.mk CredentialsMethodNone none none)
        (Heap.uniform Config.zero zeroClient 0) = .ok hd) ∧
    (∃ r, Credentials.GetHttpClientAndHeaderOverridesWithBaseClient
        (Credentials.mk CredentialsMethodNone none none) testRetryParams false none
        (Heap.uniform Config.zero zeroClient 0) = .ok r) :=
  C5_no_nil_dereference (Credentials.mk CredentialsMethodNone none none) testRetryParams false
    (Heap.uniform Config.zero zeroClient 0) (Or.inr (by decide))

end credentials

namespace credentials

/-- C6: for every input with method api_token, NewCredentials returns a nil
Credentials and a non-nil error if and only if the Config is nil or its ApiToken
is empty; in that case the error is the missing-token error, and otherwise
NewCredentials succeeds, whatever the other fields hold. -/
theorem C6_api_token_requires_token (config : Credentials) (h : Heap)
    (hm : config.Method = CredentialsMethodApiToken) :
    ((∃ err h2, NewCredentials config h = .ok ((none, some err), h2)) ↔
      (config.Config = none ∨ ∃ p, config.Config = some p ∧ (h.configs p).ApiToken = "")) ∧
    ((config.Config = none ∨ ∃ p, config.Config = some p ∧ (h.configs p).ApiToken = "") →
      NewCredentials config h
        = .ok ((none, some (.apiTokenRequired CredentialsMethodApiToken)), h)) ∧
    (¬ (config.Config = none ∨ ∃ p, config.Config = some p ∧ (h.configs p).ApiToken = "") →
      NewCredentials config h
        = .ok ((some { Method := CredentialsMethodApiToken, Config := config.Config,
                       Context := none }, none), h)) := by
  have hne := method_apiToken_ne_clientCredentials
  have hne0 : CredentialsMethodApiToken ≠ "" := by decide
  have hfail : (config.Config = none ∨ ∃ p, config.Config = some p ∧ (h.configs p).ApiToken = "") →
      NewCredentials config h
        = .ok ((none, some (.apiTokenRequired CredentialsMethodApiToken)), h) := by
    rintro (hc | ⟨p, hp, ht⟩)
    · simp [NewCredentials, Credentials.ValidateCredentialsConfig, hm, hc, hne0]
    · simp [NewCredentials, Credentials.ValidateCredentialsConfig, hm, hp, ht, hne0]
  have hok : ¬ (config.Config = none ∨ ∃ p, config.Config = some p ∧ (h.configs p).ApiToken = "") →
      NewCredentials config h
        = .ok ((some { Method := CredentialsMethodApiToken, Config := config.Config,
                       Context := none }, none), h) := by
    intro hn
    cases hcfg : config.Config with
    | none => exact absurd (Or.inl hcfg) hn
    | some p =>
      have ht : (h.configs p).ApiToken ≠ "" := fun ht => hn (Or.inr ⟨p, hcfg, ht⟩)
      simp [NewCredentials, Credentials.ValidateCredentialsConfig, hm, hcfg, ht, hne0, hne]
  refine ⟨⟨?_, fun hc => ⟨_, _, hfail hc⟩⟩, hfail, hok⟩
  rintro ⟨err, h2, he⟩
  by_contra hn
  rw [hok hn] at he
  cases he

/-- Witness of C6: api_token with a nil Config is rejected. -/
theorem C6_witness :
    NewCredentials (Credentials.mk CredentialsMethodApiToken none none)
        (Heap.uniform Config.zero zeroClient 0)
      = .ok ((none, some (.apiTokenRequired CredentialsMethodApiToken)),
             Heap.uniform Config.zero zeroClient 0) :=
  (C6_api_token_requires_token (Credentials.mk CredentialsMethodApiToken none none)
    (Heap.uniform Config.zero zeroClient 0) rfl).2.1 (Or.inl rfl)

/-- C7: for every input with method client_credentials, if the Config is nil or
any of client id, client secret and token issuer is empty, NewCredentials returns
a nil Credentials and a non-nil error; and what NewCredentials returns does not
depend on the audience and the scopes, so emptying them never causes a failure. -/
theorem C7_client_credentials_requires_id_secret_issuer (config : Credentials) (h : Heap)
    (hm : config.Method = CredentialsMethodClientCredentials) :
    ((config.Config = none ∨ ∃ p, config.Config = some p ∧
        ((h.configs p).ClientCredentialsClientId = "" ∨
         (h.configs p).ClientCredentialsClientSecret = "" ∨
         (h.configs p).ClientCredentialsApiTokenIssuer = "")) →
      NewCredentials config h
        = .ok ((none, some (.clientCredentialsRequired CredentialsMethodClientCredentials)), h)) ∧
    (∀ p audience scopes, config.Config = some p →
      (NewCredentials config
          (h.setConfig p { h.configs p with ClientCredentialsApiAudience := "",
                                            ClientCredentialsScopes := "" })).map Prod.fst
        = (NewCredentials config
          (h.setConfig p { h.configs p with ClientCredentialsApiAudience := audience,
                                            ClientCredentialsScopes := scopes })).map Prod.fst) := by
  have hne := method_apiToken_ne_clientCredentials
  have hne0 : CredentialsMethodClientCredentials ≠ "" := by decide
  refine ⟨?_, ?_⟩
  · rintro (hc | ⟨p, hp, hf⟩)
    · simp [NewCredentials, Credentials.ValidateCredentialsConfig, hm, hc, hne0, hne.symm]
    · simp only [NewCredentials, Credentials.ValidateCredentialsConfig, hm, hp, hne0, hne.symm,
        if_false, if_true, Bool.false_and, decide_False]
      rcases hf with hf | hf | hf <;> simp [hf]
  · intro p audience scopes hp
    simp only [NewCredentials, Credentials.ValidateCredentialsConfig, hm, hp, hne0, hne.symm,
      if_false, if_true, Bool.false_and, decide_False, Heap.setConfig]
    by_cases h1 : (h.configs p).ClientCredentialsClientId = ""
    · simp [h1, Except.map]
    by_cases h2 : (h.configs p).ClientCredentialsClientSecret = ""
    · simp [h2, Except.map]
    by_cases h3 : (h.configs p).ClientCredentialsApiTokenIssuer = ""
    · simp [h3, Except.map]
    simp only [h1, h2, h3, if_true, if_false, decide_False, Bool.or_self]
    cases hb : buildApiTokenURL (h.configs p).ClientCredentialsApiTokenIssuer with
    | error e => simp [Except.map]
    | ok r =>
      obtain ⟨u, e⟩ := r
      cases e <;> simp [Except.map]

/-- Witness of C7: client_credentials with a nil Config is rejected. -/
theorem C7_witness :
    NewCredentials (Credentials.mk CredentialsMethodClientCredentials none none)
        (Heap.uniform Config.zero zeroClient 0)
      = .ok ((none, some (.clientCredentialsRequired CredentialsMethodClientCredentials)),
             Heap.uniform Config.zero zeroClient 0) :=
  (C7_client_credentials_requires_id_secret_issuer
    (Credentials.mk CredentialsMethodClientCredentials none none)
    (Heap.uniform Config.zero zeroClient 0) rfl).1 (Or.inl rfl)

/-- C8: for every Credentials with method client_credentials whose client id,
client secret and issuer are all non-empty, ValidateCredentialsConfig returns an
error exactly when buildApiTokenURL returns that error on the issuer; and it
succeeds exactly when buildApiTokenURL returns a URL, the issuer field of the
Config then being that URL and every other field and object being unchanged. -/
theorem C8_validation_normalizes_issuer (c : Credentials) (h : Heap) (p : Nat)
    (hm : c.Method = CredentialsMethodClientCredentials) (hc : c.Config = some p)
    (hid : (h.configs p).ClientCredentialsClientId ≠ "")
    (hsecret : (h.configs p).ClientCredentialsClientSecret ≠ "")
    (hissuer : (h.configs p).ClientCredentialsApiTokenIssuer ≠ "") :
    (∀ err, (∃ h2, c.ValidateCredentialsConfig h = .ok (some err, h2)) ↔
      (∃ s, buildApiTokenURL (h.configs p).ClientCredentialsApiTokenIssuer = .ok (s, some err))) ∧
    (∀ err s, buildApiTokenURL (h.configs p).ClientCredentialsApiTokenIssuer = .ok (s, some err) →
      c.ValidateCredentialsConfig h = .ok (some err, h)) ∧
    (∀ h2, c.ValidateCredentialsConfig h = .ok (none, h2) ↔
      ∃ tokenURL, buildApiTokenURL (h.configs p).ClientCredentialsApiTokenIssuer
          = .ok (tokenURL, none) ∧
        h2 = h.setConfig p { h.configs p with ClientCredentialsApiTokenIssuer := tokenURL }) ∧
    (∀ h2, c.ValidateCredentialsConfig h = .ok (none, h2) →
      buildApiTokenURL (h.configs p).ClientCredentialsApiTokenIssuer
        = .ok ((h2.configs p).ClientCredentialsApiTokenIssuer, none)) := by
  have hne := method_apiToken_ne_clientCredentials
  have hval : c.ValidateCredentialsConfig h =
      match buildApiTokenURL (h.configs p).ClientCredentialsApiTokenIssuer with
      | .error e => .error e
      | .ok (_, some err) => .ok (some err, h)
      | .ok (tokenURL, none) =>
        .ok (none, h.setConfig p { h.configs p with ClientCredentialsApiTokenIssuer := tokenURL }) := by
    simp [Credentials.ValidateCredentialsConfig, hm, hc, hid, hsecret, hissuer, hne.symm]
  rw [hval]
  cases hb : buildApiTokenURL (h.configs p).ClientCredentialsApiTokenIssuer with
  | error e => simp
  | ok r =>
    obtain ⟨u, e⟩ := r
    cases e with
    | none =>
      refine ⟨by simp, by simp, ?_, ?_⟩
      · intro h2
        constructor
        · intro hh
          simp only [Except.ok.injEq, Prod.mk.injEq, true_and] at hh
          exact ⟨u, rfl, hh.symm⟩
        · rintro ⟨t, ht, rfl⟩
          simp only [Except.ok.injEq, Prod.mk.injEq, and_true] at ht
          rw [ht]
      · intro h2 hh
        simp only [Except.ok.injEq, Prod.mk.injEq, true_and] at hh
        subst hh
        simp [Heap.setConfig]
    | some err => simp

/-- Witness of C8: the Config of the tests, whose issuer is a bare host, is
validated and its issuer becomes the token URL. -/
theorem C8_witness :
    Credentials.ValidateCredentialsConfig
        (Credentials.mk CredentialsMethodClientCredentials (some 0) none)
        (Heap.uniform testClientCredentialsConfig zeroClient 0)
      = .ok (none, (Heap.uniform testClientCredentialsConfig zeroClient 0).setConfig 0
          { testClientCredentialsConfig with
            ClientCredentialsApiTokenIssuer := "https://issuer.test.example/oauth/token" }) ∧
    buildApiTokenURL
        ((Heap.uniform testClientCredentialsConfig zeroClient 0).configs 0).ClientCredentialsApiTokenIssuer
      = .ok ((((Heap.uniform testClientCredentialsConfig zeroClient 0).setConfig 0
          { testClientCredentialsConfig with
            ClientCredentialsApiTokenIssuer := "https://issuer.test.example/oauth/token" }).configs
              0).ClientCredentialsApiTokenIssuer, none) :=
  ⟨rfl,
   (C8_validation_normalizes_issuer
      (Credentials.mk CredentialsMethodClientCredentials (some 0) none)
      (Heap.uniform testClientCredentialsConfig zeroClient 0) 0 rfl rfl
      (by decide) (by decide) (by decide)).2.2.2
    ((Heap.uniform testClientCredentialsConfig zeroClient 0).setConfig 0
      { testClientCredentialsConfig with
        ClientCredentialsApiTokenIssuer := "https://issuer.test.example/oauth/token" }) rfl⟩

end credentials

/-! ## Lemmas on `strings` -/

namespace strings

theorem IndexByte_eq_none (c : Char) (s : List Char) (h : c ∉ s) : IndexByte s c = none := by
  induction s with
  | nil => rfl
  | cons x xs ih =>
    simp only [List.mem_cons, not_or] at h
    simp [IndexByte, ih h.2, Ne.symm h.1]

theorem IndexByte_append_cons (c : Char) (s t : List Char) (h : c ∉ s) :
    IndexByte (s ++ c :: t) c = some s.length := by
  induction s with
  | nil => simp [IndexByte]
  | cons x xs ih =>
    simp only [List.mem_cons, not_or] at h
    simp [IndexByte, ih h.2, Ne.symm h.1]

theorem LastIndexByte_eq_none (c : Char) (s : List Char) (h : c ∉ s) :
    LastIndexByte s c = none := by
  induction s with
  | nil => rfl
  | cons x xs ih =>
    simp only [List.mem_cons, not_or] at h
    simp [LastIndexByte, ih h.2, Ne.symm h.1]

theorem LastIndexByte_append_cons (c : Char) (s t : List Char) (h : c ∉ t) :
    LastIndexByte (s ++ c :: t) c = some s.length := by
  induction s with
  | nil => simp [LastIndexByte, LastIndexByte_eq_none c t h]
  | cons x xs ih => simp [LastIndexByte, ih]

theorem Cut_eq_of_not_mem (c : Char) (s : List Char) (h : c ∉ s) : Cut s c = (s, [], false) := by
  simp [Cut, IndexByte_eq_none c s h]

theorem HasSuffix_singleton_eq_false (c : Char) (s : List Char) (h : c ∉ s) :
    HasSuffix s [c] = false := by
  cases hs : HasSuffix s [c] with
  | false => rfl
  | true =>
    exfalso
    apply h
    have : [c] <:+ s := by simpa [HasSuffix] using hs
    exact this.subset (List.mem_singleton_self c)

theorem Contains_eq_false (c : Char) (s : List Char) (h : c ∉ s) : Contains s c = false := by
  simp [Contains, h]

end strings

/-! ## Lemmas on `net/url` -/

namespace url

theorem char_le_iff (a b : Char) : a ≤ b ↔ a.toNat ≤ b.toNat := by
  rw [Char.le_def]; exact Iff.rfl

theorem char_lt_iff (a b : Char) : a < b ↔ a.toNat < b.toNat := by
  rw [Char.lt_def]; exact Iff.rfl

/-- The characters of a plain host name: ASCII letters, digits, `-` and `.`. -/
theorem hostNameChar_facts (c : Char) (h : isLetter c ∨ isDigit c ∨ c = '-' ∨ c = '.') :
    shouldEscape c .encodeHost = false ∧ shouldEscape c .encodePath = false ∧
    c ≠ '%' ∧ c ≠ ':' ∧ c ≠ '/' ∧ c ≠ '?' ∧ c ≠ '#' ∧ c ≠ '@' ∧ c ≠ '[' ∧ c ≠ '*' ∧ c ≠ '+' ∧
    (c < ' ' || c = Char.ofNat 0x7f) = false := by
  have hse : ∀ m, shouldEscape c m = false := by
    intro m
    rcases h with h | h | h | h
    · simp [shouldEscape, h]
    · simp [shouldEscape, h]
    · subst h; cases m <;> decide
    · subst h; cases m <;> decide
  refine ⟨hse _, hse _, ?_, ?_, ?_, ?_, ?_, ?_, ?_, ?_, ?_, ?_⟩
  any_goals (rintro rfl; revert h; decide)
  have h2 : c ≠ Char.ofNat 0x7f := by
    rintro rfl; revert h; decide
  have h1 : ¬ c < ' ' := by
    rcases h with h | h | h | h
    · simp [isLetter, char_le_iff, char_lt_iff] at h ⊢
      omega
    · simp [isDigit, char_le_iff, char_lt_iff] at h ⊢
      omega
    · subst h; decide
    · subst h; decide
  simp [h1, h2]

end url

namespace url

theorem hostNameByte_facts (c : Char) (h : isHostNameByte c = true) :
    shouldEscape c .encodeHost = false ∧ shouldEscape c .encodePath = false ∧
    c ≠ '%' ∧ c ≠ ':' ∧ c ≠ '/' ∧ c ≠ '?' ∧ c ≠ '#' ∧ c ≠ '@' ∧ c ≠ '[' ∧ c ≠ '*' ∧ c ≠ '+' ∧
    (c < ' ' || c = Char.ofNat 0x7f) = false := by
  apply hostNameChar_facts
  simp only [isHostNameByte, Bool.or_eq_true, decide_eq_true_eq] at h
  tauto

theorem plainPathByte_facts (c : Char) (h : isPlainPathByte c = true) :
    shouldEscape c .encodePath = false ∧ c ≠ '%' ∧ c ≠ '?' ∧ c ≠ '#' ∧
    (c < ' ' || c = Char.ofNat 0x7f) = false := by
  simp only [isPlainPathByte, Bool.or_eq_true, List.contains_eq_any_beq, List.any_cons,
    List.any_nil, Bool.or_false, beq_iff_eq] at h
  rcases h with (h | h) | h
  · have := hostNameChar_facts c (Or.inl h)
    exact ⟨this.2.1, this.2.2.1, this.2.2.2.2.2.1, this.2.2.2.2.2.2.1, this.2.2.2.2.2.2.2.2.2.2.2⟩
  · have := hostNameChar_facts c (Or.inr (Or.inl h))
    exact ⟨this.2.1, this.2.2.1, this.2.2.2.2.2.1, this.2.2.2.2.2.2.1, this.2.2.2.2.2.2.2.2.2.2.2⟩
  · rcases h with h | h | h | h | h | h | h | h | h | h | h | h | h <;> subst h <;> decide

/-- The bytes of an authority `host[:port]`: host-name bytes and `:`. -/
theorem authorityByte_facts (c : Char) (h : isHostNameByte c = true ∨ c = ':') :
    shouldEscape c .encodeHost = false ∧ c ≠ '%' ∧ c ≠ '/' ∧ c ≠ '?' ∧ c ≠ '#' ∧ c ≠ '@' ∧
    c ≠ '[' ∧ (c < ' ' || c = Char.ofNat 0x7f) = false := by
  rcases h with h | h
  · have hf := hostNameByte_facts c h
    exact ⟨hf.1, hf.2.2.1, hf.2.2.2.2.1, hf.2.2.2.2.2.1, hf.2.2.2.2.2.2.1, hf.2.2.2.2.2.2.2.1,
      hf.2.2.2.2.2.2.2.2.1, hf.2.2.2.2.2.2.2.2.2.2.2⟩
  · subst h; decide

theorem validOptionalPort_bytes (port : List Char) (h : validOptionalPort port = true) :
    (port = [] ∨ ∃ digits, port = ':' :: digits ∧ ':' ∉ digits) ∧
    ∀ c ∈ port, isHostNameByte c = true ∨ c = ':' := by
  cases port with
  | nil => simp
  | cons x xs =>
    simp only [validOptionalPort] at h
    by_cases hx : x = ':'
    · subst hx
      simp only [ne_eq, not_true_eq_false, if_false, List.all_eq_true, Bool.not_eq_true',
        Bool.or_eq_false_iff, decide_eq_false_iff_not] at h
      have hd : ∀ c ∈ xs, isHostNameByte c = true := by
        intro c hc
        have := h c hc
        have hdig : isDigit c = true := by
          simp only [char_lt_iff, gt_iff_lt] at this
          simp only [isDigit, Bool.and_eq_true, decide_eq_true_eq, char_le_iff]
          omega
        simp [isHostNameByte, hdig]
      refine ⟨Or.inr ⟨xs, rfl, ?_⟩, ?_⟩
      · intro hm
        exact (hostNameByte_facts _ (hd _ hm)).2.2.2.1 rfl
      · intro c hc
        rcases List.mem_cons.mp hc with rfl | hc
        · exact Or.inr rfl
        · exact Or.inl (hd c hc)
    · simp [hx] at h

theorem stringContainsCTLByte_eq_false (s : List Char)
    (h : ∀ c ∈ s, (c < ' ' || c = Char.ofNat 0x7f) = false) : stringContainsCTLByte s = false := by
  simp only [stringContainsCTLByte, List.any_eq_false]
  intro c hc
  simpa using h c hc

theorem getSchemeLoop_hostName (raw s : List Char) (i : Nat)
    (h : ∀ c ∈ s, isHostNameByte c = true) : getSchemeLoop raw i s = .ok ([], raw) := by
  induction s generalizing i with
  | nil => rfl
  | cons x xs ih =>
    have hx := h x (List.mem_cons_self x xs)
    have hxs : ∀ c ∈ xs, isHostNameByte c = true := fun c hc => h c (List.mem_cons_of_mem x hc)
    by_cases hl : isLetter x = true
    · simp [getSchemeLoop, hl, ih (i + 1) hxs]
    · have hd : (isDigit x || decide (x = '+') || decide (x = '-') || decide (x = '.')) = true := by
        simp only [isHostNameByte, Bool.or_eq_true, decide_eq_true_eq] at hx ⊢
        tauto
      simp only [getSchemeLoop, hl, hd, if_true, Bool.false_eq_true, if_false]
      split
      · rfl
      · exact ih (i + 1) hxs

theorem getScheme_http (rest : List Char) :
    getScheme ('h' :: 't' :: 't' :: 'p' :: ':' :: rest) = .ok (['h', 't', 't', 'p'], rest) := by
  simp [getScheme, getSchemeLoop, isLetter, isDigit]

theorem getScheme_https (rest : List Char) :
    getScheme ('h' :: 't' :: 't' :: 'p' :: 's' :: ':' :: rest)
      = .ok (['h', 't', 't', 'p', 's'], rest) := by
  simp [getScheme, getSchemeLoop, isLetter, isDigit]

theorem unescapeCheck_eq_none (mode : encoding) (s : List Char)
    (h : ∀ c ∈ s, c ≠ '%' ∧
      ((mode = .encodeHost ∨ mode = .encodeZone) → shouldEscape c .encodeHost = false)) :
    unescapeCheck mode s = none := by
  induction s with
  | nil => rfl
  | cons x xs ih =>
    have hx := h x (List.mem_cons_self x xs)
    have hxs := ih (fun c hc => h c (List.mem_cons_of_mem x hc))
    unfold unescapeCheck
    simp only [hx.1, if_false, hxs]
    by_cases hm : mode = .encodeHost ∨ mode = .encodeZone
    · simp [hx.2 hm]
    · simp only [not_or] at hm
      simp [hm.1, hm.2]

theorem unescape_eq_self (mode : encoding) (s : List Char)
    (h : ∀ c ∈ s, c ≠ '%' ∧
      ((mode = .encodeHost ∨ mode = .encodeZone) → shouldEscape c .encodeHost = false))
    (hq : mode ≠ .encodeQueryComponent) :
    unescape s mode = .ok s := by
  have hcount : s.count '%' = 0 := by
    rw [List.count_eq_zero]
    intro hmem
    exact (h _ hmem).1 rfl
  simp [unescape, unescapeCheck_eq_none mode s h, hcount, hq]

theorem escape_eq_self (mode : encoding) (s : List Char)
    (h : ∀ c ∈ s, shouldEscape c mode = false) : escape s mode = s := by
  have : (s.all fun c => !shouldEscape c mode) = true := by
    simp only [List.all_eq_true, Bool.not_eq_true']
    exact h
  simp [escape, this]

/-- `parseHost` accepts a plain host name followed by an optional port as it is. -/
theorem parseHost_host_port (name port : List Char) (hn : ∀ c ∈ name, isHostNameByte c = true)
    (hport : validOptionalPort port = true) : parseHost (name ++ port) = .ok (name ++ port) := by
  have hpb := validOptionalPort_bytes port hport
  have hall : ∀ c ∈ name ++ port, isHostNameByte c = true ∨ c = ':' := by
    intro c hc
    rcases List.mem_append.mp hc with hc | hc
    · exact Or.inl (hn c hc)
    · exact hpb.2 c hc
  have hpre : strings.HasPrefix (name ++ port) ['['] = false := by
    cases hs : name ++ port with
    | nil => rfl
    | cons x xs =>
      have hx := (authorityByte_facts x (hall x (hs ▸ List.mem_cons_self x xs))).2.2.2.2.2.2.1
      simp [strings.HasPrefix, List.isPrefixOf, Ne.symm hx]
  have hun : unescape (name ++ port) .encodeHost = .ok (name ++ port) :=
    unescape_eq_self .encodeHost _
      (fun c hc => ⟨(authorityByte_facts c (hall c hc)).2.1,
        fun _ => (authorityByte_facts c (hall c hc)).1⟩)
      (by decide)
  rcases hpb.1 with rfl | ⟨digits, rfl, hd⟩
  · have hcolon : strings.LastIndexByte (name ++ []) ':' = none :=
      strings.LastIndexByte_eq_none ':' _ (fun hm => by
        rw [List.append_nil] at hm
        exact (hostNameByte_facts _ (hn _ hm)).2.2.2.1 rfl)
    simp only [parseHost, hpre, hcolon, hun]
    simp
  · have hcolon : strings.LastIndexByte (name ++ ':' :: digits) ':' = some name.length :=
      strings.LastIndexByte_append_cons ':' name digits hd
    simp only [parseHost, hpre, hcolon, hun]
    simp [hport]

theorem parseHost_hostName (s : List Char) (h : ∀ c ∈ s, isHostNameByte c = true) :
    parseHost s = .ok s := by
  have := parseHost_host_port s [] h rfl
  simpa using this

theorem parseAuthority_host_port (name port : List Char)
    (hn : ∀ c ∈ name, isHostNameByte c = true) (hport : validOptionalPort port = true) :
    parseAuthority (name ++ port) = .ok (none, name ++ port) := by
  have hpb := validOptionalPort_bytes port hport
  have hat : strings.LastIndexByte (name ++ port) '@' = none := by
    apply strings.LastIndexByte_eq_none
    intro hm
    rcases List.mem_append.mp hm with hm | hm
    · exact (authorityByte_facts _ (Or.inl (hn _ hm))).2.2.2.2.2.1 rfl
    · exact (authorityByte_facts _ (hpb.2 _ hm)).2.2.2.2.2.1 rfl
  simp [parseAuthority, hat, parseHost_host_port name port hn hport]

theorem setPath_plain (u : URL) (p : List Char) (h : ∀ c ∈ p, shouldEscape c .encodePath = false)
    (hp : '%' ∉ p) : u.setPath p = .ok { u with Path := p, RawPath := [] } := by
  have hun : unescape p .encodePath = .ok p :=
    unescape_eq_self .encodePath p
      (fun c hc => ⟨fun hc2 => hp (hc2 ▸ hc), fun hm => by rcases hm with hm | hm <;> cases hm⟩)
      (by decide)
  simp [URL.setPath, hun, escape_eq_self .encodePath p h]

end url

namespace url

theorem HasPrefix_slash_eq_false (s : List Char) (h : ∀ c ∈ s, c ≠ '/') (t : List Char) :
    strings.HasPrefix s ('/' :: t) = false := by
  cases s with
  | nil => rfl
  | cons x xs =>
    have hx := h x (List.mem_cons_self x xs)
    simp [strings.HasPrefix, List.isPrefixOf, Ne.symm hx]

/-- `url.Parse` on a bare host name yields a URL with only a path. -/
theorem Parse_hostName (s : List Char) (h : ∀ c ∈ s, isHostNameByte c = true) :
    Parse s = .ok { URL.zero with Path := s } := by
  have hf := fun c hc => hostNameByte_facts c (h c hc)
  have hhash : strings.Cut s '#' = (s, [], false) :=
    strings.Cut_eq_of_not_mem '#' s (fun hm => (hf _ hm).2.2.2.2.2.2.1 rfl)
  have hq : strings.Cut s '?' = (s, [], false) :=
    strings.Cut_eq_of_not_mem '?' s (fun hm => (hf _ hm).2.2.2.2.2.1 rfl)
  have hslash : strings.Cut s '/' = (s, [], false) :=
    strings.Cut_eq_of_not_mem '/' s (fun hm => (hf _ hm).2.2.2.2.1 rfl)
  have hctl : stringContainsCTLByte s = false :=
    stringContainsCTLByte_eq_false s (fun c hc => (hf c hc).2.2.2.2.2.2.2.2.2.2.2)
  have hstar : s ≠ ['*'] := by
    rintro rfl
    exact (hf '*' (List.mem_singleton_self _)).2.2.2.2.2.2.2.2.2.1 rfl
  have hsuf : strings.HasSuffix s ['?'] = false :=
    strings.HasSuffix_singleton_eq_false '?' s (fun hm => (hf _ hm).2.2.2.2.2.1 rfl)
  have hpre : ∀ t, strings.HasPrefix s ('/' :: t) = false :=
    HasPrefix_slash_eq_false s (fun c hc => (hf c hc).2.2.2.2.1)
  have hcolon : strings.Contains s ':' = false :=
    strings.Contains_eq_false ':' s (fun hm => (hf _ hm).2.2.2.1 rfl)
  have hpath : ∀ u : URL, u.setPath s = .ok { u with Path := s, RawPath := [] } :=
    fun u => setPath_plain u s (fun c hc => (hf c hc).2.1) (fun hm => (hf _ hm).2.2.1 rfl)
  simp [Parse, parse, hhash, hq, hslash, hctl, hstar, hsuf, hpre, hcolon, hpath,
    getScheme, getSchemeLoop_hostName s s 0 h, parseAuthorityAndPath, strings.ToLower, URL.zero]

/-- The split of `host` followed by `path` at the first `/`. -/
theorem IndexByte_host_path (host path : List Char) (hh : ∀ c ∈ host, c ≠ '/')
    (hp : path = [] ∨ path.head? = some '/') :
    (match strings.IndexByte (host ++ path) '/' with
      | some i => (host ++ path).take i
      | none => host ++ path) = host ∧
    (match strings.IndexByte (host ++ path) '/' with
      | some i => (host ++ path).drop i
      | none => []) = path := by
  rcases hp with rfl | hp
  · have : strings.IndexByte host '/' = none :=
      strings.IndexByte_eq_none '/' host (fun hm => hh _ hm rfl)
    simp [this]
  · cases path with
    | nil => simp at hp
    | cons x xs =>
      simp only [List.head?_cons, Option.some.injEq] at hp
      subst hp
      have : strings.IndexByte (host ++ '/' :: xs) '/' = some host.length :=
        strings.IndexByte_append_cons '/' host xs (fun hm => hh _ hm rfl)
      simp [this]

/-- `url.Parse` on `scheme://authority` followed by a plain path (empty, or
starting with `/`), for a scheme that `getScheme` splits off and `ToLower` keeps
and an authority that `parseAuthority` accepts as a host. -/
theorem Parse_of_scheme (scheme host path : List Char)
    (hgs : ∀ rest, getScheme (scheme ++ ':' :: rest) = .ok (scheme, rest))
    (hlow : strings.ToLower scheme = scheme) (hne : scheme ≠ [])
    (hsc : ∀ c ∈ scheme, isHostNameByte c = true)
    (hh : ∀ c ∈ host, isHostNameByte c = true ∨ c = ':')
    (hauth : parseAuthority host = .ok (none, host))
    (hp : ∀ c ∈ path, isPlainPathByte c = true)
    (hp0 : path = [] ∨ path.head? = some '/') :
    Parse (scheme ++ [':', '/', '/'] ++ host ++ path)
      = .ok { URL.zero with Scheme := scheme, Host := host, Path := path } := by
  have hf := fun c hc => authorityByte_facts c (h := hh c hc)
  have hg := fun c hc => plainPathByte_facts c (h := hp c hc)
  have hsf := fun c hc => hostNameByte_facts c (h := hsc c hc)
  have hraw : scheme ++ [':', '/', '/'] ++ host ++ path
      = scheme ++ ':' :: ('/' :: '/' :: (host ++ path)) := by simp
  rw [hraw]
  have hrest : ∀ c ∈ '/' :: '/' :: (host ++ path),
      c ≠ '#' ∧ c ≠ '?' ∧ (c < ' ' || c = Char.ofNat 0x7f) = false := by
    intro c hc
    simp only [List.mem_cons, List.mem_append] at hc
    rcases hc with rfl | rfl | hc | hc
    · decide
    · decide
    · exact ⟨(hf c hc).2.2.2.2.1, (hf c hc).2.2.2.1, (hf c hc).2.2.2.2.2.2.2⟩
    · exact ⟨(hg c hc).2.2.2.1, (hg c hc).2.2.1, (hg c hc).2.2.2.2⟩
  have hall : ∀ c ∈ scheme ++ ':' :: ('/' :: '/' :: (host ++ path)),
      c ≠ '#' ∧ c ≠ '?' ∧ (c < ' ' || c = Char.ofNat 0x7f) = false := by
    intro c hc
    rw [List.mem_append, List.mem_cons] at hc
    rcases hc with hc | rfl | hc
    · exact ⟨(hsf c hc).2.2.2.2.2.2.1, (hsf c hc).2.2.2.2.2.1, (hsf c hc).2.2.2.2.2.2.2.2.2.2.2⟩
    · decide
    · exact hrest c hc
  have hhash : strings.Cut (scheme ++ ':' :: ('/' :: '/' :: (host ++ path))) '#'
      = (scheme ++ ':' :: ('/' :: '/' :: (host ++ path)), [], false) :=
    strings.Cut_eq_of_not_mem '#' _ (fun hm => (hall _ hm).1 rfl)
  have hq : strings.Cut ('/' :: '/' :: (host ++ path)) '?'
      = ('/' :: '/' :: (host ++ path), [], false) :=
    strings.Cut_eq_of_not_mem '?' _ (fun hm => (hrest _ hm).2.1 rfl)
  have hsuf : strings.HasSuffix ('/' :: '/' :: (host ++ path)) ['?'] = false :=
    strings.HasSuffix_singleton_eq_false '?' _ (fun hm => (hrest _ hm).2.1 rfl)
  have hctl : stringContainsCTLByte (scheme ++ ':' :: ('/' :: '/' :: (host ++ path))) = false :=
    stringContainsCTLByte_eq_false _ (fun c hc => (hall c hc).2.2)
  have hstar : scheme ++ ':' :: ('/' :: '/' :: (host ++ path)) ≠ ['*'] := by
    intro he
    have hlen := congrArg List.length he
    simp at hlen
    omega
  have hsplit := IndexByte_host_path host path (fun c hc => (hf c hc).2.2.1) hp0
  have hpath : ∀ u : URL, u.setPath path = .ok { u with Path := path, RawPath := [] } :=
    fun u => setPath_plain u path (fun c hc => (hg c hc).1) (fun hm => (hg _ hm).2.1 rfl)
  simp [Parse, parse, hhash, hq, hctl, hstar, hsuf, hgs, hlow, hne, parseAuthorityAndPath,
    strings.HasPrefix, List.isPrefixOf, hsplit.1, hsplit.2, hauth, hpath, URL.zero]

/-- `url.Parse` on `http://host[:port]` or `https://host[:port]` followed by a
plain path (empty, or starting with `/`). -/
theorem Parse_scheme_host_path (scheme name port path : List Char)
    (hs : scheme = ['h', 't', 't', 'p'] ∨ scheme = ['h', 't', 't', 'p', 's'])
    (hn : ∀ c ∈ name, isHostNameByte c = true) (hport : validOptionalPort port = true)
    (hp : ∀ c ∈ path, isPlainPathByte c = true)
    (hp0 : path = [] ∨ path.head? = some '/') :
    Parse (scheme ++ [':', '/', '/'] ++ (name ++ port) ++ path)
      = .ok { URL.zero with Scheme := scheme, Host := name ++ port, Path := path } := by
  have hpb := validOptionalPort_bytes port hport
  have hh : ∀ c ∈ name ++ port, isHostNameByte c = true ∨ c = ':' := by
    intro c hc
    rcases List.mem_append.mp hc with hc | hc
    · exact Or.inl (hn c hc)
    · exact hpb.2 c hc
  have hauth := parseAuthority_host_port name port hn hport
  rcases hs with rfl | rfl
  · exact Parse_of_scheme _ _ path getScheme_http (by decide) (by decide) (by decide) hh hauth
      hp hp0
  · exact Parse_of_scheme _ _ path getScheme_https (by decide) (by decide) (by decide) hh hauth
      hp hp0

end url

namespace url

theorem EscapedPath_plain (u : URL) (hraw : u.RawPath = [])
    (hp : ∀ c ∈ u.Path, shouldEscape c .encodePath = false) : u.EscapedPath = u.Path := by
  have he := escape_eq_self .encodePath u.Path hp
  by_cases hstar : u.Path = ['*']
  · simp [URL.EscapedPath, hraw, hstar]
  · simp [URL.EscapedPath, hraw, hstar, he]

/-- `String` of a URL that has only a scheme, a plain host and a plain path. -/
theorem String_scheme_host_path (scheme host path : List Char) (hne : scheme ≠ [])
    (hh : ∀ c ∈ host, shouldEscape c .encodeHost = false)
    (hp : ∀ c ∈ path, shouldEscape c .encodePath = false) :
    ({ URL.zero with Scheme := scheme, Host := host, Path := path } : URL).String
      = scheme ++ [':'] ++ (if host ≠ [] ∨ path ≠ [] then ['/', '/'] else []) ++ host
        ++ (if path ≠ [] ∧ path.head? ≠ some '/' ∧ host ≠ [] then ['/'] else []) ++ path := by
  have hesc : escape host .encodeHost = host :=
    escape_eq_self .encodeHost host hh
  have hpath : ({ URL.zero with Scheme := scheme, Host := host, Path := path } : URL).EscapedPath
      = path := EscapedPath_plain _ rfl hp
  simp only [URL.String, hpath]
  simp only [URL.authorityString, URL.zero, hesc, hne]
  by_cases hh0 : host = [] <;> by_cases hp0 : path = [] <;>
    by_cases hp1 : path.head? = some '/' <;> simp [hh0, hp0, hp1, hne]

end url

namespace credentials

theorem data_https_append (s : String) :
    ("https://" ++ s).data
      = ['h', 't', 't', 'p', 's'] ++ [':', '/', '/'] ++ (s.data ++ []) ++ [] := by
  simp [String.data_append]

/-- The token URL of a bare host name. -/
theorem buildApiTokenURL_bare_host (host : String) (hne : host ≠ "")
    (hh : ∀ c ∈ host.data, url.isHostNameByte c = true) :
    buildApiTokenURL host = .ok ("https://" ++ host ++ "/oauth/token", none) := by
  have h1 := url.Parse_hostName host.data hh
  have h2 := url.Parse_scheme_host_path ['h', 't', 't', 'p', 's'] host.data [] []
    (Or.inr rfl) hh rfl (by simp) (Or.inl rfl)
  have hd : host.data ≠ [] := by
    intro hd
    apply hne
    exact String.ext hd
  have htok : ∀ c ∈ defaultTokenEndpointPath.data, url.shouldEscape c .encodePath = false := by
    decide
  have h3 := url.String_scheme_host_path ['h', 't', 't', 'p', 's'] host.data
    defaultTokenEndpointPath.data (by simp)
    (fun c hc => (url.hostNameByte_facts c (hh c hc)).1) htok
  simp only [buildApiTokenURL, h1, url.URL.zero, data_https_append, h2, Except.toOption]
  simp only [url.URL.zero] at h3
  simp [h3, hd]
  apply String.ext
  simp [String.data_append, defaultTokenEndpointPath]

/-- C9: for every issuer that is a plain host name (non-empty, made of ASCII
letters, digits, `-` and `.`; no scheme, port or path), buildApiTokenURL succeeds
and returns "https://" followed by the host followed by "/oauth/token". -/
theorem C9_bare_host_defaults_to_https (host : String) (hne : host ≠ "")
    (hh : ∀ c ∈ host.data, url.isHostNameByte c = true) :
    buildApiTokenURL host = .ok ("https://" ++ host ++ "/oauth/token", none) :=
  buildApiTokenURL_bare_host host hne hh

/-- Witness of C9: the issuer of the spec, "issuer.example". -/
theorem C9_witness :
    buildApiTokenURL "issuer.example" = .ok ("https://" ++ "issuer.example" ++ "/oauth/token", none) :=
  C9_bare_host_defaults_to_https "issuer.example" (by decide) (by decide)

end credentials

namespace credentials

/-- C10, as stated, fails: the issuer "HTTPS://issuer.example/custom/token" is a
URL whose scheme parses as https and whose path is "/custom/token", and so is
"https://issuer.example/custom/token#" (an empty fragment); buildApiTokenURL
succeeds on both but returns "https://issuer.example/custom/token", not the
issuer string. -/
theorem C10_counterexample :
    ((url.Parse "HTTPS://issuer.example/custom/token".data).map
        fun u => (String.mk u.Scheme, String.mk u.Path)) = .ok ("https", "/custom/token") ∧
    buildApiTokenURL "HTTPS://issuer.example/custom/token"
      = .ok ("https://issuer.example/custom/token", none) ∧
    "https://issuer.example/custom/token" ≠ "HTTPS://issuer.example/custom/token" ∧
    ((url.Parse "https://issuer.example/custom/token#".data).map
        fun u => (String.mk u.Scheme, String.mk u.Path)) = .ok ("https", "/custom/token") ∧
    buildApiTokenURL "https://issuer.example/custom/token#"
      = .ok ("https://issuer.example/custom/token", none) ∧
    "https://issuer.example/custom/token" ≠ "https://issuer.example/custom/token#" := by
  refine ⟨by rfl, by rfl, by decide, by rfl, by rfl, by decide⟩

/-- The token URL of `scheme://host[:port]` followed by a plain path other than `/`. -/
theorem buildApiTokenURL_plain_path (scheme host port path : String)
    (hs : scheme = "http" ∨ scheme = "https")
    (hh : ∀ c ∈ host.data, url.isHostNameByte c = true)
    (hport : url.validOptionalPort port.data = true)
    (hp : ∀ c ∈ path.data, url.isPlainPathByte c = true)
    (hp0 : path.data.head? = some '/') (hp1 : path ≠ "/") :
    buildApiTokenURL (scheme ++ "://" ++ host ++ port ++ path)
      = .ok (scheme ++ "://" ++ host ++ port ++ path, none) := by
  have hsd : scheme.data = ['h', 't', 't', 'p'] ∨ scheme.data = ['h', 't', 't', 'p', 's'] := by
    rcases hs with rfl | rfl
    · exact Or.inl rfl
    · exact Or.inr rfl
  have hdata : (scheme ++ "://" ++ host ++ port ++ path).data
      = scheme.data ++ [':', '/', '/'] ++ (host.data ++ port.data) ++ path.data := by
    simp [String.data_append]
  have h1 := url.Parse_scheme_host_path scheme.data host.data port.data path.data hsd hh hport hp
    (Or.inr hp0)
  have hsne : scheme.data ≠ [] := by
    rcases hsd with h | h <;> simp [h]
  have hpe : ∀ c ∈ path.data, url.shouldEscape c .encodePath = false :=
    fun c hc => (url.plainPathByte_facts c (hp c hc)).1
  have hhe : ∀ c ∈ host.data ++ port.data, url.shouldEscape c .encodeHost = false := by
    intro c hc
    rcases List.mem_append.mp hc with hc | hc
    · exact (url.hostNameByte_facts c (hh c hc)).1
    · exact (url.authorityByte_facts c ((url.validOptionalPort_bytes _ hport).2 c hc)).1
  have h3 := url.String_scheme_host_path scheme.data (host.data ++ port.data) path.data hsne
    hhe hpe
  have hpne : path.data ≠ [] := by
    intro h; simp [h] at hp0
  have hpslash : path.data ≠ ['/'] := by
    intro h
    apply hp1
    exact String.ext h
  have hhttp : "http".data = ['h', 't', 't', 'p'] := rfl
  have hhttps : "https".data = ['h', 't', 't', 'p', 's'] := rfl
  simp only [url.URL.zero] at h1 h3
  simp only [buildApiTokenURL, hdata, h1]
  have hsch : (scheme.data = [] ) = False := by simp [hsne]
  have hscheme2 : (scheme.data ≠ "http".data && scheme.data ≠ "https".data) = false := by
    rcases hsd with h | h <;> simp [h, hhttp, hhttps]
  simp only [hsch, if_false, hscheme2, Bool.false_eq_true, hpne, hpslash, decide_False,
    Bool.or_self, h3]
  simp [hpne, hp0]
  apply String.ext
  simp [String.data_append]

/-- C10, amended: for every issuer of the form scheme://host, an optional
:port, and a path, where the scheme is exactly "http" or "https" in lower case,
the host is made of ASCII letters, digits, `-` and `.`, the port is made of
digits, and the path starts with `/`, is not exactly "/", and is made of bytes
that need no escaping in a path (ASCII letters, digits and `-_.~$&+,/:;=@`),
buildApiTokenURL succeeds and returns the issuer string unchanged. -/
theorem C10_custom_path_unchanged (scheme host port path : String)
    (hs : scheme = "http" ∨ scheme = "https")
    (hh : ∀ c ∈ host.data, url.isHostNameByte c = true)
    (hport : url.validOptionalPort port.data = true)
    (hp : ∀ c ∈ path.data, url.isPlainPathByte c = true)
    (hp0 : path.data.head? = some '/') (hp1 : path ≠ "/") :
    buildApiTokenURL (scheme ++ "://" ++ host ++ port ++ path)
      = .ok (scheme ++ "://" ++ host ++ port ++ path, none) :=
  buildApiTokenURL_plain_path scheme host port path hs hh hport hp hp0 hp1

/-- Witness of C10 (amended): the issuer of the spec with a custom token path. -/
theorem C10_witness :
    buildApiTokenURL ("https" ++ "://" ++ "issuer.example" ++ "" ++ "/custom/token")
      = .ok ("https" ++ "://" ++ "issuer.example" ++ "" ++ "/custom/token", none) :=
  C10_custom_path_unchanged "https" "issuer.example" "" "/custom/token" (Or.inr rfl)
    (by decide) (by decide) (by decide) (by decide) (by decide)

end credentials

/-! ## Theorems: issuer normalisation by scheme and path -/

namespace credentials

/-- The outcome of `buildApiTokenURL` on an issuer that parses with the scheme
`http` or `https`: the parsed URL written back, with the default token path in
place of an empty path or the path `/`. -/
theorem buildApiTokenURL_of_http (issuer : String) (u : url.URL)
    (hp : url.Parse issuer.data = .ok u)
    (hs : u.Scheme = "http".data ∨ u.Scheme = "https".data) :
    buildApiTokenURL issuer
      = .ok (if u.Path = [] ∨ u.Path = ['/'] then
               String.mk ({ u with Path := defaultTokenEndpointPath.data }).String
             else String.mk u.String, none) := by
  have hne : u.Scheme ≠ [] := by
    rcases hs with h | h <;> rw [h] <;> decide
  have hsch : (u.Scheme ≠ "http".data && u.Scheme ≠ "https".data) = false := by
    rcases hs with h | h <;> rw [h] <;> decide
  simp only [buildApiTokenURL, hp, hne, if_false, hsch, Bool.false_eq_true]
  by_cases h1 : u.Path = []
  · simp [h1]
  · by_cases h2 : u.Path = ['/']
    · simp [h2]
    · simp [h1, h2]

/-- C11: for every issuer that `url.Parse` accepts with a non-empty scheme other
than http and https, buildApiTokenURL fails: it returns the empty string and the
invalid-scheme error, never a URL. -/
theorem C11_unsupported_scheme_rejected (issuer : String) (u : url.URL)
    (hp : url.Parse issuer.data = .ok u) (hne : u.Scheme ≠ [])
    (hhttp : u.Scheme ≠ "http".data) (hhttps : u.Scheme ≠ "https".data) :
    buildApiTokenURL issuer = .ok ("", some (.invalidIssuerScheme (String.mk u.Scheme))) := by
  simp [buildApiTokenURL, hp, hne, hhttp, hhttps]

/-- Witness of C11: the issuer of the spec, "ftp://issuer.example". -/
theorem C11_witness :
    url.Parse "ftp://issuer.example".data
      = .ok { url.URL.zero with Scheme := "ftp".data, Host := "issuer.example".data } ∧
    buildApiTokenURL "ftp://issuer.example" = .ok ("", some (.invalidIssuerScheme "ftp")) :=
  ⟨rfl,
   C11_unsupported_scheme_rejected "ftp://issuer.example"
     { url.URL.zero with Scheme := "ftp".data, Host := "issuer.example".data }
     rfl (by decide) (by decide) (by decide)⟩

/-- The token URL of `scheme://host[:port]` with an empty path or the path `/`. -/
theorem buildApiTokenURL_default_path (scheme host port path : String)
    (hs : scheme = "http" ∨ scheme = "https") (hne : host ≠ "")
    (hh : ∀ c ∈ host.data, url.isHostNameByte c = true)
    (hport : url.validOptionalPort port.data = true)
    (hpath : path = "" ∨ path = "/") :
    buildApiTokenURL (scheme ++ "://" ++ host ++ port ++ path)
      = .ok (scheme ++ "://" ++ host ++ port ++ "/oauth/token", none) := by
  have hsd : scheme.data = ['h', 't', 't', 'p'] ∨ scheme.data = ['h', 't', 't', 'p', 's'] := by
    rcases hs with rfl | rfl
    · exact Or.inl rfl
    · exact Or.inr rfl
  have hpd : path.data = [] ∨ path.data = ['/'] := by
    rcases hpath with rfl | rfl
    · exact Or.inl rfl
    · exact Or.inr rfl
  have hpb : ∀ c ∈ path.data, url.isPlainPathByte c = true := by
    rcases hpd with h | h <;> rw [h] <;> decide
  have hp0 : path.data = [] ∨ path.data.head? = some '/' := by
    rcases hpd with h | h <;> simp [h]
  have hdata : (scheme ++ "://" ++ host ++ port ++ path).data
      = scheme.data ++ [':', '/', '/'] ++ (host.data ++ port.data) ++ path.data := by
    simp [String.data_append]
  have h1 := url.Parse_scheme_host_path scheme.data host.data port.data path.data hsd hh hport
    hpb hp0
  rw [← hdata] at h1
  have h2 := buildApiTokenURL_of_http _ _ h1 (by simpa using hsd)
  rw [h2]
  have hsne : scheme.data ≠ [] := by
    rcases hsd with h | h <;> simp [h]
  have hd : host.data ≠ [] := by
    intro hd
    exact hne (String.ext hd)
  have hhe : ∀ c ∈ host.data ++ port.data, url.shouldEscape c .encodeHost = false := by
    intro c hc
    rcases List.mem_append.mp hc with hc | hc
    · exact (url.hostNameByte_facts c (hh c hc)).1
    · exact (url.authorityByte_facts c ((url.validOptionalPort_bytes _ hport).2 c hc)).1
  have htok : ∀ c ∈ defaultTokenEndpointPath.data, url.shouldEscape c .encodePath = false := by
    decide
  have h3 := url.String_scheme_host_path scheme.data (host.data ++ port.data)
    defaultTokenEndpointPath.data hsne hhe htok
  simp only [url.URL.zero] at h3 ⊢
  have hcond : (path.data = [] ∨ path.data = ['/']) := hpd
  simp only [hcond, if_true, h3]
  simp [hd]
  apply String.ext
  simp [String.data_append, defaultTokenEndpointPath]

/-- C12, as stated, fails: for the host "é.example" (its first two bytes are C3
A9) buildApiTokenURL maps "https://é.example" and "https://é.example/" to
"https://%C3%A9.example/oauth/token", the host written back with the two bytes
escaped, not to the issuer's host followed by "/oauth/token". -/
theorem C12_counterexample :
    buildApiTokenURL
        (String.mk ("https://".data ++ [Char.ofNat 0xC3, Char.ofNat 0xA9] ++ ".example".data))
      = .ok ("https://%C3%A9.example/oauth/token", none) ∧
    buildApiTokenURL
        (String.mk ("https://".data ++ [Char.ofNat 0xC3, Char.ofNat 0xA9] ++ ".example/".data))
      = .ok ("https://%C3%A9.example/oauth/token", none) ∧
    "https://%C3%A9.example/oauth/token"
      ≠ String.mk ("https://".data ++ [Char.ofNat 0xC3, Char.ofNat 0xA9]
          ++ ".example/oauth/token".data) := by
  refine ⟨rfl, rfl, by decide⟩

/-- C12, amended: for every scheme in {http, https} and every host that is a
non-empty host name of ASCII letters, digits, `-` and `.`, with an optional port
of digits, buildApiTokenURL maps both "scheme://host" and "scheme://host/" to
"scheme://host/oauth/token", and maps "scheme://host" followed by any other path
(starting with `/`, made of bytes that need no escaping) to itself, the default
token path not being appended; and for every issuer that parses with the scheme
http or https, the default token path takes the place of the path exactly when
the path is empty or "/", the URL being written back with its own path
otherwise. -/
theorem C12_default_token_path (scheme host port : String)
    (hs : scheme = "http" ∨ scheme = "https") (hne : host ≠ "")
    (hh : ∀ c ∈ host.data, url.isHostNameByte c = true)
    (hport : url.validOptionalPort port.data = true) :
    buildApiTokenURL (scheme ++ "://" ++ host ++ port)
      = .ok (scheme ++ "://" ++ host ++ port ++ "/oauth/token", none) ∧
    buildApiTokenURL (scheme ++ "://" ++ host ++ port ++ "/")
      = .ok (scheme ++ "://" ++ host ++ port ++ "/oauth/token", none) ∧
    (∀ path : String, (∀ c ∈ path.data, url.isPlainPathByte c = true) →
      path.data.head? = some '/' → path ≠ "/" →
      buildApiTokenURL (scheme ++ "://" ++ host ++ port ++ path)
        = .ok (scheme ++ "://" ++ host ++ port ++ path, none)) ∧
    (∀ issuer u, url.Parse issuer.data = .ok u →
      (u.Scheme = "http".data ∨ u.Scheme = "https".data) →
      buildApiTokenURL issuer
        = .ok (if u.Path = [] ∨ u.Path = ['/'] then
                 String.mk ({ u with Path := defaultTokenEndpointPath.data }).String
               else String.mk u.String, none)) := by
  refine ⟨?_, ?_, ?_, ?_⟩
  · have := buildApiTokenURL_default_path scheme host port "" hs hne hh hport (Or.inl rfl)
    simpa using this
  · exact buildApiTokenURL_default_path scheme host port "/" hs hne hh hport (Or.inr rfl)
  · intro path hp hp0 hp1
    exact buildApiTokenURL_plain_path scheme host port path hs hh hport hp hp0 hp1
  · intro issuer u hp hsch
    exact buildApiTokenURL_of_http issuer u hp hsch

/-- Witness of C12 (amended): the host "issuer.example" with the scheme http. -/
theorem C12_witness :
    buildApiTokenURL ("http" ++ "://" ++ "issuer.example" ++ "")
      = .ok ("http" ++ "://" ++ "issuer.example" ++ "" ++ "/oauth/token", none) ∧
    buildApiTokenURL ("http" ++ "://" ++ "issuer.example" ++ "" ++ "/")
      = .ok ("http" ++ "://" ++ "issuer.example" ++ "" ++ "/oauth/token", none) ∧
    buildApiTokenURL ("http" ++ "://" ++ "issuer.example" ++ "" ++ "/custom/token")
      = .ok ("http" ++ "://" ++ "issuer.example" ++ "" ++ "/custom/token", none) :=
  ⟨(C12_default_token_path "http" "issuer.example" "" (Or.inl rfl) (by decide) (by decide)
      (by decide)).1,
   (C12_default_token_path "http" "issuer.example" "" (Or.inl rfl) (by decide) (by decide)
      (by decide)).2.1,
   (C12_default_token_path "http" "issuer.example" "" (Or.inl rfl) (by decide) (by decide)
      (by decide)).2.2.1 "/custom/token" (by decide) (by decide) (by decide)⟩

end credentials

/-! ## Theorems: what the resolver hands to the OAuth2 component -/

namespace credentials

theorem copySettings_Transport (base client : http.Client) :
    (copySettings base client).Transport = client.Transport := by
  unfold copySettings
  split <;> split <;> split <;> rfl

/-- What the client_credentials branch of the resolver does, for a non-nil
Config: it returns a newly allocated client and no header, sets a nil Context of
the receiver to the background context, leaves every Config as it was, and the
new client's transport is the OAuth2 transport built from the configuration of
lines 117-136 and from the receiver's context, extended with the base client
under `oauth2.HTTPClient` when there is one. -/
theorem resolve_client_credentials (c : Credentials) (retryParams : retryutils.RetryParams)
    (debug : Bool) (baseClient : Option Nat) (h : Heap) (p : Nat)
    (hm : c.Method = CredentialsMethodClientCredentials) (hc : c.Config = some p) :
    ∃ r, c.GetHttpClientAndHeaderOverridesWithBaseClient retryParams debug baseClient h = .ok r ∧
      r.client = some h.nextClient ∧ r.headers = [] ∧
      r.receiver = { c with Context := some (c.Context.getD context.Background) } ∧
      r.heap.configs = h.configs ∧ r.heap.nextClient = h.nextClient + 1 ∧
      (r.heap.clients h.nextClient).Transport
        = .oauth2
            (match baseClient with
             | some b => (h.clients b).Transport
             | none =>
               match (c.Context.getD context.Background).Value .HTTPClient with
               | some (some q) => (h.clients q).Transport
               | _ => .nil)
            (ccConfigOf (h.configs p) retryParams debug)
            (match baseClient with
             | some b => context.WithValue (c.Context.getD context.Background) .HTTPClient (some b)
             | none => c.Context.getD context.Background) ∧
      (baseClient = none →
        r.heap.clients h.nextClient
          = { Transport := (r.heap.clients h.nextClient).Transport, CheckRedirect := none,
              Jar := none, Timeout := 0 } ∧
        ∀ a, a ≠ h.nextClient → r.heap.clients a = h.clients a) := by
  cases hcx : c.Context with
  | none =>
    cases baseClient with
    | none =>
      simp only [Credentials.GetHttpClientAndHeaderOverridesWithBaseClient, hm, hc, hcx,
        clientcredentials.Config.Client, Heap.newClient, if_true, Option.getD]
      refine ⟨_, rfl, rfl, rfl, rfl, rfl, rfl, ?_, ?_⟩
      · try simp only [if_true]
        try rfl
      intro _
      refine ⟨by simp, ?_⟩
      intro a ha
      simp [ha]
    | some b =>
      simp only [Credentials.GetHttpClientAndHeaderOverridesWithBaseClient, hm, hc, hcx,
        clientcredentials.Config.Client, Heap.newClient, if_true, Option.getD]
      refine ⟨_, rfl, rfl, rfl, rfl, rfl, rfl, ?_, ?_⟩
      · simp [Heap.setClient, copySettings_Transport, context.WithValue, context.Context.Value]
      · intro hb
        cases hb
  | some x =>
    cases baseClient with
    | none =>
      simp only [Credentials.GetHttpClientAndHeaderOverridesWithBaseClient, hm, hc, hcx,
        clientcredentials.Config.Client, Heap.newClient, if_true, Option.getD]
      refine ⟨_, rfl, rfl, rfl, rfl, rfl, rfl, ?_, ?_⟩
      · simp only [if_true]
      intro _
      refine ⟨by simp, ?_⟩
      intro a ha
      simp [ha]
    | some b =>
      simp only [Credentials.GetHttpClientAndHeaderOverridesWithBaseClient, hm, hc, hcx,
        clientcredentials.Config.Client, Heap.newClient, if_true, Option.getD]
      refine ⟨_, rfl, rfl, rfl, rfl, rfl, rfl, ?_, ?_⟩
      · simp [Heap.setClient, copySettings_Transport, context.WithValue, context.Context.Value]
      · intro hb
        cases hb

end credentials

namespace credentials

/-- C13, as stated, fails: a client_credentials value with an empty client secret
fails validation, yet the resolver builds an OAuth2 client for it; an api_token
value with an empty token fails validation, yet the resolver returns an
Authorization header for it. -/
theorem C13_counterexample :
    Credentials.ValidateCredentialsConfig
        (Credentials.mk CredentialsMethodClientCredentials (some 0) none)
        (Heap.uniform { testClientCredentialsConfig with ClientCredentialsClientSecret := "" }
          zeroClient 0)
      = .ok (some (.clientCredentialsRequired CredentialsMethodClientCredentials),
             Heap.uniform { testClientCredentialsConfig with ClientCredentialsClientSecret := "" }
               zeroClient 0) ∧
    (∃ r conf ctx,
      Credentials.GetHttpClientAndHeaderOverridesWithBaseClient
          (Credentials.mk CredentialsMethodClientCredentials (some 0) none) testRetryParams false
          none
          (Heap.uniform { testClientCredentialsConfig with ClientCredentialsClientSecret := "" }
            zeroClient 0) = .ok r ∧
        r.client = some 0 ∧ r.heap.nextClient = 1 ∧
        (r.heap.clients 0).Transport = .oauth2 .nil conf ctx ∧ conf.ClientSecret = "") ∧
    Credentials.ValidateCredentialsConfig
        (Credentials.mk CredentialsMethodApiToken (some 0) none)
        (Heap.uniform Config.zero zeroClient 0)
      = .ok (some (.apiTokenRequired CredentialsMethodApiToken),
             Heap.uniform Config.zero zeroClient 0) ∧
    (∃ r,
      Credentials.GetHttpClientAndHeaderOverridesWithBaseClient
          (Credentials.mk CredentialsMethodApiToken (some 0) none) testRetryParams false none
          (Heap.uniform Config.zero zeroClient 0) = .ok r ∧
        r.headers = [{ Key := "Authorization", Value := "Bearer " }]) :=
  ⟨rfl, ⟨_, _, _, rfl, rfl, rfl, rfl, rfl⟩, rfl, ⟨_, rfl, rfl⟩⟩

/-- C13, amended: the gate is in NewCredentials.  For every input, if validation
of the new Credentials returns an error, NewCredentials returns a nil Credentials
together with that error; and every Credentials that NewCredentials returns
passed validation. -/
theorem C13_new_credentials_fail_closed (config : Credentials) (h : Heap) :
    (∀ err h2,
      Credentials.ValidateCredentialsConfig
          { Method := if config.Method = "" then CredentialsMethodNone else config.Method,
            Config := config.Config, Context := none } h = .ok (some err, h2) →
        NewCredentials config h = .ok ((none, some err), h2)) ∧
    (∀ creds h2, NewCredentials config h = .ok ((some creds, none), h2) →
      creds.ValidateCredentialsConfig h = .ok (none, h2)) := by
  have hcreds : (if config.Method = "" then
        ({ Method := CredentialsMethodNone, Config := config.Config, Context := none } : Credentials)
      else { Method := config.Method, Config := config.Config, Context := none })
      = { Method := if config.Method = "" then CredentialsMethodNone else config.Method,
          Config := config.Config, Context := none } := by
    split <;> rfl
  refine ⟨?_, ?_⟩
  · intro err h2 hv
    simp only [NewCredentials, hcreds, hv]
  · intro creds h2 hn
    simp only [NewCredentials, hcreds] at hn
    cases hv : Credentials.ValidateCredentialsConfig
        { Method := if config.Method = "" then CredentialsMethodNone else config.Method,
          Config := config.Config, Context := none } h with
    | error e => simp [hv] at hn
    | ok res =>
      obtain ⟨e, h3⟩ := res
      cases e with
      | some err => simp [hv] at hn
      | none =>
        simp only [hv, Except.ok.injEq, Prod.mk.injEq, Option.some.injEq, and_true] at hn
        obtain ⟨hc, hh⟩ := hn
        subst hc hh
        exact hv

/-- Witness of C13 (amended): client_credentials with an empty client secret
gets no Credentials from NewCredentials. -/
theorem C13_witness :
    NewCredentials (Credentials.mk CredentialsMethodClientCredentials (some 0) none)
        (Heap.uniform { testClientCredentialsConfig with ClientCredentialsClientSecret := "" }
          zeroClient 0)
      = .ok ((none, some (.clientCredentialsRequired CredentialsMethodClientCredentials)),
             Heap.uniform { testClientCredentialsConfig with ClientCredentialsClientSecret := "" }
               zeroClient 0) :=
  (C13_new_credentials_fail_closed
    (Credentials.mk CredentialsMethodClientCredentials (some 0) none)
    (Heap.uniform { testClientCredentialsConfig with ClientCredentialsClientSecret := "" }
      zeroClient 0)).1 _ _ rfl

/-- C14: for every Credentials with method client_credentials (its Config
present) and every base client, the configuration the resolver hands to the
OAuth2 component, recorded in the transport of the client it returns, has the
Config's client id and client secret, the Config's issuer field as stored for
token URL, and for endpoint parameters exactly the one entry "audience" with the
one value ClientCredentialsApiAudience when that audience is non-empty, and none
when it is empty. -/
theorem C14_oauth2_configuration (c : Credentials) (retryParams : retryutils.RetryParams)
    (debug : Bool) (baseClient : Option Nat) (h : Heap) (p : Nat)
    (hm : c.Method = CredentialsMethodClientCredentials) (hc : c.Config = some p) :
    ∃ r client base conf ctx,
      c.GetHttpClientAndHeaderOverridesWithBaseClient retryParams debug baseClient h = .ok r ∧
      r.client = some client ∧
      (r.heap.clients client).Transport = .oauth2 base conf ctx ∧
      conf.ClientID = (h.configs p).ClientCredentialsClientId ∧
      conf.ClientSecret = (h.configs p).ClientCredentialsClientSecret ∧
      conf.TokenURL = (h.configs p).ClientCredentialsApiTokenIssuer ∧
      ((h.configs p).ClientCredentialsApiAudience ≠ "" →
        conf.EndpointParams = [("audience", [(h.configs p).ClientCredentialsApiAudience])]) ∧
      ((h.configs p).ClientCredentialsApiAudience = "" → conf.EndpointParams = []) := by
  obtain ⟨r, hr, hcl, _, _, _, _, htr, _⟩ :=
    resolve_client_credentials c retryParams debug baseClient h p hm hc
  refine ⟨r, _, _, _, _, hr, hcl, htr, ?_, ?_, ?_, ?_, ?_⟩
  · unfold ccConfigOf; simp only; split <;> split <;> rfl
  · unfold ccConfigOf; simp only; split <;> split <;> rfl
  · unfold ccConfigOf; simp only; split <;> split <;> rfl
  · intro ha
    unfold ccConfigOf; simp only [ha]; split <;> simp
  · intro ha
    unfold ccConfigOf; simp only [ha]; split <;> simp

/-- Witness of C14: the client-credentials test, whose audience is
"https://api.test.example/". -/
theorem C14_witness :
    ∃ r client base conf ctx,
      Credentials.GetHttpClientAndHeaderOverridesWithBaseClient
        (Credentials.mk CredentialsMethodClientCredentials (some 0) none) testRetryParams false
        (some 0) (Heap.uniform testClientCredentialsConfig customClient 1) = .ok r ∧
      r.client = some client ∧
      (r.heap.clients client).Transport = .oauth2 base conf ctx ∧
      conf.ClientID = "test-client-id" ∧
      conf.ClientSecret = "test-client-secret" ∧
      conf.TokenURL = "issuer.test.example" ∧
      ("https://api.test.example/" ≠ "" →
        conf.EndpointParams = [("audience", ["https://api.test.example/"])]) ∧
      ("https://api.test.example/" = "" → conf.EndpointParams = []) :=
  C14_oauth2_configuration (Credentials.mk CredentialsMethodClientCredentials (some 0) none)
    testRetryParams false (some 0) (Heap.uniform testClientCredentialsConfig customClient 1) 0
    rfl rfl

end credentials

/-! ## Lemmas on `strings.Split` -/

namespace strings

theorem Split_ne_nil (s : List Char) (sep : Char) : Split s sep ≠ [] := by
  induction s with
  | nil => simp [Split]
  | cons c cs ih =>
    unfold Split
    split
    · simp
    · split <;> simp

theorem Split_not_mem (s : List Char) (sep : Char) : ∀ e ∈ Split s sep, sep ∉ e := by
  induction s with
  | nil => simp [Split]
  | cons c cs ih =>
    unfold Split
    split
    · intro e he
      rcases List.mem_cons.mp he with rfl | he
      · simp
      · exact ih e he
    · rename_i hne
      split
      · rename_i hd tl heq
        intro e he
        rcases List.mem_cons.mp he with rfl | he
        · intro hm
          rcases List.mem_cons.mp hm with hm | hm
          · exact hne hm.symm
          · exact ih hd (by rw [heq]; exact List.mem_cons_self _ _) hm
        · exact ih e (by rw [heq]; exact List.mem_cons_of_mem _ he)
      · intro e he
        simp only [List.mem_singleton] at he
        subst he
        intro hm
        simp only [List.mem_singleton] at hm
        exact hne hm.symm

theorem Split_intercalate (s : List Char) (sep : Char) :
    List.intercalate [sep] (Split s sep) = s := by
  induction s with
  | nil => simp [Split, List.intercalate]
  | cons c cs ih =>
    unfold Split
    split
    · rename_i heq
      subst heq
      have hne := Split_ne_nil cs c
      cases hs : Split cs c with
      | nil => exact absurd hs hne
      | cons hd tl =>
        rw [hs] at ih
        rw [← ih]
        simp [List.intercalate, List.intersperse]
    · split
      · rename_i hd tl heq
        rw [heq] at ih
        rw [← ih]
        cases tl <;> simp [List.intercalate, List.intersperse]
      · rename_i heq
        exact absurd heq (Split_ne_nil cs sep)

/-- Every space rune starts and ends with a byte outside the printable ASCII
range `!` to `~`. -/
theorem spaceEncodings_ends :
    spaceEncodings.all (fun enc =>
      (match enc with
       | c :: _ => decide (c.toNat < 0x21 ∨ 0x7E < c.toNat)
       | [] => false) &&
      (match enc.reverse with
       | c :: _ => decide (c.toNat < 0x21 ∨ 0x7E < c.toNat)
       | [] => false)) = true := by
  decide

theorem leadingSpace_eq_none (c : Char) (rest : List Char)
    (hc : 0x21 ≤ c.toNat ∧ c.toNat ≤ 0x7E) : leadingSpace (c :: rest) = none := by
  have hall := spaceEncodings_ends
  rw [List.all_eq_true] at hall
  simp only [leadingSpace, Option.map_eq_none', List.find?_eq_none]
  intro enc henc hpre
  have h1 := hall enc henc
  cases enc with
  | nil => simp at h1
  | cons e es =>
    simp only [List.isPrefixOf, Bool.and_eq_true, beq_iff_eq] at hpre
    simp only [Bool.and_eq_true, decide_eq_true_eq] at h1
    have := h1.1
    rw [hpre.1] at this
    omega

theorem trailingSpace_eq_none (s : List Char) (c : Char) (rest : List Char)
    (hs : s.reverse = c :: rest)
    (hc : 0x21 ≤ c.toNat ∧ c.toNat ≤ 0x7E) : trailingSpace s = none := by
  have hall := spaceEncodings_ends
  rw [List.all_eq_true] at hall
  simp only [trailingSpace, Option.map_eq_none', List.find?_eq_none]
  intro enc henc hsuf
  have h1 := hall enc henc
  simp only [List.isSuffixOf, hs] at hsuf
  cases her : enc.reverse with
  | nil => simp [her] at h1
  | cons e es =>
    rw [her] at hsuf
    simp only [List.isPrefixOf, Bool.and_eq_true, beq_iff_eq] at hsuf
    simp only [her, Bool.and_eq_true, decide_eq_true_eq] at h1
    have := h1.2
    rw [hsuf.1] at this
    omega

theorem trimLeftSpace_eq_self (n : Nat) (s : List Char) (h : leadingSpace s = none) :
    trimLeftSpace n s = s := by
  cases n <;> simp [trimLeftSpace, h]

theorem trimRightSpace_eq_self (n : Nat) (s : List Char) (h : trailingSpace s = none) :
    trimRightSpace n s = s := by
  cases n <;> simp [trimRightSpace, h]

/-- `TrimSpace` leaves a text alone that starts and ends with a printable ASCII
byte other than the space. -/
theorem TrimSpace_eq_self (s : List Char) (c d : Char) (r1 r2 : List Char)
    (h1 : s = c :: r1) (hc : 0x21 ≤ c.toNat ∧ c.toNat ≤ 0x7E)
    (h2 : s.reverse = d :: r2) (hd : 0x21 ≤ d.toNat ∧ d.toNat ≤ 0x7E) :
    TrimSpace s = s := by
  have hl : leadingSpace s = none := by rw [h1]; exact leadingSpace_eq_none c r1 hc
  have hr : trailingSpace s = none := trailingSpace_eq_none s d r2 h2 hd
  simp [TrimSpace, trimLeftSpace_eq_self _ s hl, trimRightSpace_eq_self _ s hr]

theorem Split_of_not_mem (w : List Char) (sep : Char) (h : sep ∉ w) : Split w sep = [w] := by
  induction w with
  | nil => rfl
  | cons c cs ih =>
    simp only [List.mem_cons, not_or] at h
    simp [Split, ih h.2, Ne.symm h.1]

theorem Split_append_sep (w rest : List Char) (sep : Char) (h : sep ∉ w) :
    Split (w ++ sep :: rest) sep = w :: Split rest sep := by
  induction w with
  | nil => simp [Split]
  | cons c cs ih =>
    simp only [List.mem_cons, not_or] at h
    simp [Split, ih h.2, Ne.symm h.1]

/-- Splitting the join of separator-free words gives the words back. -/
theorem Split_intercalate_words (ws : List (List Char)) (sep : Char) (hne : ws ≠ [])
    (h : ∀ w ∈ ws, sep ∉ w) : Split (List.intercalate [sep] ws) sep = ws := by
  induction ws with
  | nil => exact absurd rfl hne
  | cons w rest ih =>
    cases rest with
    | nil =>
      simp [List.intercalate, List.intersperse]
      exact Split_of_not_mem w sep (h w (List.mem_cons_self _ _))
    | cons w2 rest2 =>
      have hrest := ih (by simp) (fun x hx => h x (List.mem_cons_of_mem _ hx))
      have : List.intercalate [sep] (w :: w2 :: rest2)
          = w ++ sep :: List.intercalate [sep] (w2 :: rest2) := by
        simp [List.intercalate, List.intersperse]
      rw [this, Split_append_sep w _ sep (h w (List.mem_cons_self _ _)), hrest]

theorem intercalate_words_ends (ws : List (List Char)) (hne : ws ≠ [])
    (hw : ∀ w ∈ ws, w ≠ [] ∧ ∀ c ∈ w, 0x21 ≤ c.toNat ∧ c.toNat ≤ 0x7E) :
    (∃ c r1, List.intercalate [' '] ws = c :: r1 ∧ 0x21 ≤ c.toNat ∧ c.toNat ≤ 0x7E) ∧
    (∃ d r2, (List.intercalate [' '] ws).reverse = d :: r2 ∧ 0x21 ≤ d.toNat ∧ d.toNat ≤ 0x7E) := by
  induction ws with
  | nil => exact absurd rfl hne
  | cons w rest ih =>
    have hww := hw w (List.mem_cons_self _ _)
    cases rest with
    | nil =>
      have ht : List.intercalate [' '] [w] = w := by simp [List.intercalate, List.intersperse]
      rw [ht]
      constructor
      · cases hwe : w with
        | nil => exact absurd hwe hww.1
        | cons c r => exact ⟨c, r, rfl, hww.2 c (by rw [hwe]; exact List.mem_cons_self _ _)⟩
      · cases hwe : w.reverse with
        | nil => exact absurd (List.reverse_eq_nil_iff.mp hwe) hww.1
        | cons d r =>
          refine ⟨d, r, rfl, hww.2 d ?_⟩
          have : d ∈ w.reverse := by rw [hwe]; exact List.mem_cons_self _ _
          exact List.mem_reverse.mp this
    | cons w2 rest2 =>
      have hrest := ih (by simp) (fun x hx => hw x (List.mem_cons_of_mem _ hx))
      have ht : List.intercalate [' '] (w :: w2 :: rest2)
          = w ++ ' ' :: List.intercalate [' '] (w2 :: rest2) := by
        simp [List.intercalate, List.intersperse]
      rw [ht]
      constructor
      · cases hwe : w with
        | nil => exact absurd hwe hww.1
        | cons c r =>
          exact ⟨c, _, rfl, hww.2 c (by rw [hwe]; exact List.mem_cons_self _ _)⟩
      · obtain ⟨d, r2, hrev, hd⟩ := hrest.2
        refine ⟨d, r2 ++ ' ' :: w.reverse, ?_, hd⟩
        simp [hrev]

/-- Trimming and splitting the join of non-empty words of printable ASCII bytes
other than the space gives the words back. -/
theorem Split_TrimSpace_words (ws : List (List Char)) (hne : ws ≠ [])
    (hw : ∀ w ∈ ws, w ≠ [] ∧ ∀ c ∈ w, 0x21 ≤ c.toNat ∧ c.toNat ≤ 0x7E) :
    Split (TrimSpace (List.intercalate [' '] ws)) ' ' = ws := by
  obtain ⟨⟨c, r1, h1, hc⟩, ⟨d, r2, h2, hd⟩⟩ := intercalate_words_ends ws hne hw
  rw [TrimSpace_eq_self _ c d r1 r2 h1 hc h2 hd]
  apply Split_intercalate_words ws ' ' hne
  intro w hwm hsp
  have := (hw w hwm).2 ' ' hsp
  simp at this

end strings

namespace credentials

theorem ccConfigOf_Scopes (conf : Config) (retryParams : retryutils.RetryParams) (debug : Bool) :
    (ccConfigOf conf retryParams debug).Scopes
      = if conf.ClientCredentialsScopes ≠ "" then
          (strings.Split (strings.TrimSpace conf.ClientCredentialsScopes.data) ' ').map String.mk
        else [] := by
  unfold ccConfigOf
  by_cases ha : conf.ClientCredentialsApiAudience = "" <;>
    by_cases hs : conf.ClientCredentialsScopes = "" <;> simp [ha, hs]

/-- C15, as stated, fails: with the scopes string "read  write" (two spaces) the
scope list handed to the OAuth2 component is ["read", "", "write"], and with the
scopes string " " it is [""]: a non-empty scopes string can give empty elements. -/
theorem C15_counterexample :
    (∃ r base conf ctx,
      Credentials.GetHttpClientAndHeaderOverridesWithBaseClient
          (Credentials.mk CredentialsMethodClientCredentials (some 0) none) testRetryParams false
          none
          (Heap.uniform { testClientCredentialsConfig with ClientCredentialsScopes := "read  write" }
            zeroClient 0) = .ok r ∧
        r.client = some 0 ∧ (r.heap.clients 0).Transport = .oauth2 base conf ctx ∧
        conf.Scopes = ["read", "", "write"]) ∧
    (∃ r base conf ctx,
      Credentials.GetHttpClientAndHeaderOverridesWithBaseClient
          (Credentials.mk CredentialsMethodClientCredentials (some 0) none) testRetryParams false
          none
          (Heap.uniform { testClientCredentialsConfig with ClientCredentialsScopes := " " }
            zeroClient 0) = .ok r ∧
        r.client = some 0 ∧ (r.heap.clients 0).Transport = .oauth2 base conf ctx ∧
        conf.Scopes = [""]) :=
  ⟨⟨_, _, _, _, rfl, rfl, rfl, rfl⟩, ⟨_, _, _, _, rfl, rfl, rfl, rfl⟩⟩

/-- C15, amended: for every Credentials with method client_credentials (its
Config present), the scope list handed to the OAuth2 component is empty when the
scopes string is empty; for a non-empty scopes string it is the list of the
pieces of the scopes string, trimmed of leading and trailing white space, between
single spaces, in their order (joining them with single spaces gives the trimmed
string back), and no element contains a space; when the scopes string consists of
non-empty words of printable ASCII bytes other than the space, separated by
single spaces, the list is exactly those words. -/
theorem C15_scopes_split_on_single_spaces (c : Credentials)
    (retryParams : retryutils.RetryParams) (debug : Bool) (baseClient : Option Nat) (h : Heap)
    (p : Nat) (hm : c.Method = CredentialsMethodClientCredentials) (hc : c.Config = some p) :
    ∃ r client base conf ctx,
      c.GetHttpClientAndHeaderOverridesWithBaseClient retryParams debug baseClient h = .ok r ∧
      r.client = some client ∧
      (r.heap.clients client).Transport = .oauth2 base conf ctx ∧
      ((h.configs p).ClientCredentialsScopes = "" → conf.Scopes = []) ∧
      ((h.configs p).ClientCredentialsScopes ≠ "" →
        conf.Scopes
          = (strings.Split (strings.TrimSpace (h.configs p).ClientCredentialsScopes.data) ' ').map
              String.mk ∧
        (∀ e ∈ conf.Scopes, ' ' ∉ e.data) ∧
        List.intercalate [' '] (conf.Scopes.map String.data)
          = strings.TrimSpace (h.configs p).ClientCredentialsScopes.data) ∧
      (∀ ws : List String, ws ≠ [] →
        (∀ w ∈ ws, w ≠ "" ∧ ∀ ch ∈ w.data, 0x21 ≤ ch.toNat ∧ ch.toNat ≤ 0x7E) →
        (h.configs p).ClientCredentialsScopes.data
          = List.intercalate [' '] (ws.map String.data) →
        conf.Scopes = ws) := by
  obtain ⟨r, hr, hcl, _, _, _, _, htr, _⟩ :=
    resolve_client_credentials c retryParams debug baseClient h p hm hc
  refine ⟨r, _, _, _, _, hr, hcl, htr, ?_, ?_, ?_⟩
  · intro hs
    rw [ccConfigOf_Scopes]; simp [hs]
  · intro hs
    have hsc : (ccConfigOf (h.configs p) retryParams debug).Scopes
        = (strings.Split (strings.TrimSpace (h.configs p).ClientCredentialsScopes.data) ' ').map
            String.mk := by
      rw [ccConfigOf_Scopes]; simp [hs]
    refine ⟨hsc, ?_, ?_⟩
    · intro e he
      rw [hsc] at he
      obtain ⟨l, hl, rfl⟩ := List.mem_map.mp he
      exact strings.Split_not_mem _ _ l hl
    · rw [hsc, List.map_map]
      have : (String.data ∘ String.mk) = id := by
        funext l; rfl
      rw [this, List.map_id]
      exact strings.Split_intercalate _ _
  · intro ws hne hw hdata
    have hne2 : ws.map String.data ≠ [] := by simpa using hne
    have hw2 : ∀ w ∈ ws.map String.data,
        w ≠ [] ∧ ∀ ch ∈ w, 0x21 ≤ ch.toNat ∧ ch.toNat ≤ 0x7E := by
      intro w hwm
      obtain ⟨x, hx, rfl⟩ := List.mem_map.mp hwm
      refine ⟨?_, (hw x hx).2⟩
      intro hd
      exact (hw x hx).1 (String.ext hd)
    obtain ⟨⟨c0, r1, h1, _⟩, _⟩ := strings.intercalate_words_ends _ hne2 hw2
    have hs : (h.configs p).ClientCredentialsScopes ≠ "" := by
      intro hs
      rw [hs, h1] at hdata
      cases hdata
    rw [ccConfigOf_Scopes]
    simp only [hs, ne_eq, not_false_eq_true, if_true]
    rw [hdata, strings.Split_TrimSpace_words _ hne2 hw2, List.map_map]
    have : (String.mk ∘ String.data) = id := by
      funext l; rfl
    rw [this, List.map_id]

/-- Witness of C15 (amended): the scopes string "read write". -/
theorem C15_witness :
    ∃ r client base conf ctx,
      Credentials.GetHttpClientAndHeaderOverridesWithBaseClient
        (Credentials.mk CredentialsMethodClientCredentials (some 0) none) testRetryParams false none
        (Heap.uniform { testClientCredentialsConfig with ClientCredentialsScopes := "read write" }
          zeroClient 0) = .ok r ∧
      r.client = some client ∧
      (r.heap.clients client).Transport = .oauth2 base conf ctx ∧
      ("read write" = "" → conf.Scopes = []) ∧
      ("read write" ≠ "" →
        conf.Scopes = (strings.Split (strings.TrimSpace "read write".data) ' ').map String.mk ∧
        (∀ e ∈ conf.Scopes, ' ' ∉ e.data) ∧
        List.intercalate [' '] (conf.Scopes.map String.data)
          = strings.TrimSpace "read write".data) ∧
      (∀ ws : List String, ws ≠ [] →
        (∀ w ∈ ws, w ≠ "" ∧ ∀ ch ∈ w.data, 0x21 ≤ ch.toNat ∧ ch.toNat ≤ 0x7E) →
        "read write".data = List.intercalate [' '] (ws.map String.data) →
        conf.Scopes = ws) :=
  C15_scopes_split_on_single_spaces
    (Credentials.mk CredentialsMethodClientCredentials (some 0) none) testRetryParams false none
    (Heap.uniform { testClientCredentialsConfig with ClientCredentialsScopes := "read write" }
      zeroClient 0) 0 rfl rfl

/-- C16: for every Credentials with method client_credentials (its Config
present), the context given to the OAuth2 component is the Credentials' own
Context, or the background context when that is nil.  With a base client the
context given is that context extended with the base client under
`oauth2.HTTPClient`, and the transport of the returned client is built on the
base client's transport; with no base client the context is passed as it is and
the component's client is returned as the component made it. -/
theorem C16_context_given_to_oauth2 (c : Credentials) (retryParams : retryutils.RetryParams)
    (debug : Bool) (h : Heap) (p : Nat)
    (hm : c.Method = CredentialsMethodClientCredentials) (hc : c.Config = some p) :
    (∀ b, ∃ r,
      c.GetHttpClientAndHeaderOverridesWithBaseClient retryParams debug (some b) h = .ok r ∧
      r.client = some h.nextClient ∧
      (r.heap.clients h.nextClient).Transport
        = .oauth2 (h.clients b).Transport (ccConfigOf (h.configs p) retryParams debug)
            (context.WithValue (c.Context.getD context.Background) .HTTPClient (some b)) ∧
      (context.WithValue (c.Context.getD context.Background) .HTTPClient (some b)).Value
          .HTTPClient = some (some b)) ∧
    (∃ r base,
      c.GetHttpClientAndHeaderOverridesWithBaseClient retryParams debug none h = .ok r ∧
      r.client = some h.nextClient ∧
      (r.heap.clients h.nextClient).Transport
        = .oauth2 base (ccConfigOf (h.configs p) retryParams debug)
            (c.Context.getD context.Background) ∧
      r.client = ((ccConfigOf (h.configs p) retryParams debug).Client
                    (c.Context.getD context.Background) h).1 ∧
      r.heap = ((ccConfigOf (h.configs p) retryParams debug).Client
                    (c.Context.getD context.Background) h).2) := by
  refine ⟨?_, ?_⟩
  · intro b
    obtain ⟨r, hr, hcl, _, _, _, _, htr, _⟩ :=
      resolve_client_credentials c retryParams debug (some b) h p hm hc
    exact ⟨r, hr, hcl, htr, by simp [context.WithValue, context.Context.Value]⟩
  · obtain ⟨r, hr, hcl, _, _, _, _, htr, _⟩ :=
      resolve_client_credentials c retryParams debug none h p hm hc
    refine ⟨r, _, hr, hcl, htr, ?_, ?_⟩
    · rw [hcl]; rfl
    · have hr2 := hr
      cases hcx : c.Context <;>
        simp only [Credentials.GetHttpClientAndHeaderOverridesWithBaseClient, hm, hc, hcx,
          if_true, Except.ok.injEq] at hr2 <;>
        rw [← hr2] <;> rfl

/-- Witness of C16: the client-credentials test with its base client, and the
credentials-only test without one. -/
theorem C16_witness :
    (∃ r,
      Credentials.GetHttpClientAndHeaderOverridesWithBaseClient
        (Credentials.mk CredentialsMethodClientCredentials (some 0) none) testRetryParams false
        (some 0) (Heap.uniform testClientCredentialsConfig customClient 1) = .ok r ∧
      r.client = some 1 ∧
      (r.heap.clients 1).Transport
        = .oauth2 customClient.Transport (ccConfigOf testClientCredentialsConfig testRetryParams false)
            (context.WithValue context.Background .HTTPClient (some 0)) ∧
      (context.WithValue context.Background .HTTPClient (some 0)).Value .HTTPClient
        = some (some 0)) :=
  (C16_context_given_to_oauth2 (Credentials.mk CredentialsMethodClientCredentials (some 0) none)
    testRetryParams false (Heap.uniform testClientCredentialsConfig customClient 1) 0 rfl rfl).1 0

end credentials

/-! ## Theorems: frame of the resolver, the nil dereference of the normaliser, method none -/

namespace credentials

/-- A Credentials value that passed validation with method api_token or
client_credentials has a non-nil Config. -/
theorem Config_of_validated (c : Credentials) (h h2 : Heap)
    (hv : c.ValidateCredentialsConfig h = .ok (none, h2))
    (hm : c.Method = CredentialsMethodApiToken ∨ c.Method = CredentialsMethodClientCredentials) :
    ∃ p, c.Config = some p := by
  cases hc : c.Config with
  | some p => exact ⟨p, rfl⟩
  | none =>
    exfalso
    rcases hm with hm | hm
    · simp [Credentials.ValidateCredentialsConfig, hm, hc] at hv
    · simp [Credentials.ValidateCredentialsConfig, hm, hc,
        method_apiToken_ne_clientCredentials.symm] at hv

/-- C17, as stated, fails: a validated client_credentials value with a nil
Context (as NewCredentials returns it) comes out of the resolver with its Context
set to the background context. -/
theorem C17_counterexample :
    ∃ h r,
      Credentials.ValidateCredentialsConfig
          (Credentials.mk CredentialsMethodClientCredentials (some 0) none)
          (Heap.uniform testClientCredentialsConfig zeroClient 0) = .ok (none, h) ∧
      Credentials.GetHttpClientAndHeaderOverridesWithBaseClient
          (Credentials.mk CredentialsMethodClientCredentials (some 0) none) testRetryParams false
          none h = .ok r ∧
      (Credentials.mk CredentialsMethodClientCredentials (some 0) none).Context = none ∧
      r.receiver.Context = some context.Background :=
  ⟨_, _, rfl, rfl, rfl, rfl⟩

/-- C17, amended: for every validated Credentials, every retry policy and every
base client, the resolver returns and leaves the Credentials' Method and Config
pointer and every Config in the heap (all six fields) as they were; the Context
is as it was too, except that with method client_credentials a nil Context has
become the background context. -/
theorem C17_resolver_frame (c : Credentials) (retryParams : retryutils.RetryParams)
    (debug : Bool) (baseClient : Option Nat) (h0 h : Heap)
    (hv : c.ValidateCredentialsConfig h0 = .ok (none, h)) :
    ∃ r, c.GetHttpClientAndHeaderOverridesWithBaseClient retryParams debug baseClient h = .ok r ∧
      r.receiver.Method = c.Method ∧ r.receiver.Config = c.Config ∧
      r.heap.configs = h.configs ∧
      r.receiver.Context
        = (if c.Method = CredentialsMethodClientCredentials ∧ c.Context = none then
            some context.Background
           else c.Context) := by
  by_cases hcc : c.Method = CredentialsMethodClientCredentials
  · obtain ⟨p, hp⟩ := Config_of_validated c h0 h hv (Or.inr hcc)
    obtain ⟨r, hr, _, _, hrec, hcfg, _⟩ :=
      resolve_client_credentials c retryParams debug baseClient h p hcc hp
    refine ⟨r, hr, by rw [hrec], by rw [hrec], hcfg, ?_⟩
    rw [hrec]
    cases hcx : c.Context <;> simp [hcc, hcx]
  · by_cases hat : c.Method = CredentialsMethodApiToken
    · obtain ⟨p, hp⟩ := Config_of_validated c h0 h hv (Or.inl hat)
      refine ⟨{ client := baseClient,
                headers := [{ Key := ApiTokenHeaderKey,
                              Value := ApiTokenHeaderValuePrefix ++ " " ++ (h.configs p).ApiToken }],
                receiver := c, heap := h }, ?_, rfl, rfl, rfl, ?_⟩
      · simp [Credentials.GetHttpClientAndHeaderOverridesWithBaseClient,
          Credentials.GetApiTokenHeader, hat, hp, method_apiToken_ne_clientCredentials]
      · simp [hcc]
    · refine ⟨{ client := baseClient, headers := [], receiver := c, heap := h }, ?_, rfl, rfl,
        rfl, ?_⟩
      · simp [Credentials.GetHttpClientAndHeaderOverridesWithBaseClient, hcc, hat]
      · simp [hcc]

/-- Witness of C17 (amended): the validated API-token Credentials of the tests. -/
theorem C17_witness :
    ∃ r, Credentials.GetHttpClientAndHeaderOverridesWithBaseClient
          (Credentials.mk CredentialsMethodApiToken (some 0) none) testRetryParams false (some 0)
          (Heap.uniform testApiTokenConfig customClient 1) = .ok r ∧
      r.receiver.Method = CredentialsMethodApiToken ∧ r.receiver.Config = some 0 ∧
      r.heap.configs = (Heap.uniform testApiTokenConfig customClient 1).configs ∧
      r.receiver.Context
        = (if CredentialsMethodApiToken = CredentialsMethodClientCredentials ∧
              (none : Option context.Context) = none then
            some context.Background
           else none) :=
  C17_resolver_frame (Credentials.mk CredentialsMethodApiToken (some 0) none) testRetryParams
    false (some 0) (Heap.uniform testApiTokenConfig customClient 1)
    (Heap.uniform testApiTokenConfig customClient 1) rfl

/-- C18: buildApiTokenURL is not total.  On the issuer "my issuer.example" the
first `url.Parse` succeeds with an empty scheme, the second `url.Parse`, of
"https://my issuer.example", fails on the space in the host, its error is
dropped, and the nil URL is dereferenced. -/
theorem C18_nil_dereference_on_invalid_host :
    url.Parse "my issuer.example".data
      = .ok { url.URL.zero with Path := "my issuer.example".data,
                                RawPath := "my issuer.example".data } ∧
    url.Parse ("https://" ++ "my issuer.example").data
      = .error { Op := "parse", URL := "https://my issuer.example".data,
                 Err := .InvalidHostError [' '] } ∧
    buildApiTokenURL "my issuer.example" = .error .nilDereference :=
  ⟨rfl, rfl, rfl⟩

/-- C19: for every input whose Method is none or the empty string, and every
Config pointer, nil included, NewCredentials succeeds with a nil error and
returns a Credentials whose Method is none, with the input's Config and a nil
Context; the heap is untouched. -/
theorem C19_none_requires_nothing (config : Credentials) (h : Heap)
    (hm : config.Method = CredentialsMethodNone ∨ config.Method = "") :
    NewCredentials config h
      = .ok ((some { Method := CredentialsMethodNone, Config := config.Config, Context := none },
              none), h) := by
  have h1 : CredentialsMethodNone ≠ "" := by decide
  rcases hm with hm | hm
  · simp [NewCredentials, Credentials.ValidateCredentialsConfig, hm, h1,
      method_none_ne_apiToken, method_none_ne_clientCredentials]
  · simp [NewCredentials, Credentials.ValidateCredentialsConfig, hm,
      method_none_ne_apiToken, method_none_ne_clientCredentials]

/-- Witness of C19: an empty Method with a nil Config. -/
theorem C19_witness :
    NewCredentials (Credentials.mk "" none (some context.Background))
        (Heap.uniform Config.zero zeroClient 0)
      = .ok ((some { Method := CredentialsMethodNone, Config := none, Context := none }, none),
             Heap.uniform Config.zero zeroClient 0) :=
  C19_none_requires_nothing (Credentials.mk "" none (some context.Background))
    (Heap.uniform Config.zero zeroClient 0) (Or.inr rfl)

end credentials

/-! ## Theorems: the client configuration composer -/

namespace openfga

open credentials in
/-- C20: for every configuration on which NewAPIClient returns, the resulting
configuration's HTTP client is non-nil.  With no Credentials and no caller
client a default client is installed; with client_credentials (Config present)
and no caller client the client is the newly built OAuth2 client; with method
none, or api_token (Config present), and no caller client the resolver hands back
a nil client and a default client is installed. -/
theorem C20_http_client_never_nil (cfg : Configuration) (retryParams : retryutils.RetryParams)
    (debug : Bool) (h : Heap) :
    (∀ cfg2 h2, NewAPIClient cfg retryParams debug h = .ok (cfg2, h2) → cfg2.HTTPClient ≠ none) ∧
    (cfg.Credentials = none → cfg.HTTPClient = none →
      NewAPIClient cfg retryParams debug h
        = .ok ({ cfg with HTTPClient := some h.nextClient }, (h.newClient zeroClient).2)) ∧
    (∀ creds, cfg.Credentials = some creds → cfg.HTTPClient = none →
      creds.Method = CredentialsMethodClientCredentials → creds.Config ≠ none →
      ∃ cfg2 h2, NewAPIClient cfg retryParams debug h = .ok (cfg2, h2) ∧
        cfg2.HTTPClient = some h.nextClient ∧
        ∃ base conf ctx, (h2.clients h.nextClient).Transport = .oauth2 base conf ctx) ∧
    (∀ creds, cfg.Credentials = some creds → cfg.HTTPClient = none →
      (creds.Method = CredentialsMethodNone ∨
        (creds.Method = CredentialsMethodApiToken ∧ creds.Config ≠ none)) →
      ∃ cfg2 h2, NewAPIClient cfg retryParams debug h = .ok (cfg2, h2) ∧
        cfg2.HTTPClient = some h.nextClient ∧ h2.clients h.nextClient = zeroClient) := by
  refine ⟨?_, ?_, ?_, ?_⟩
  · intro cfg2 h2 hn
    unfold NewAPIClient at hn
    simp only at hn
    split at hn
    · cases hn
    · rename_i cfg1 h1 _
      split at hn
      · rename_i x hx
        simp only [Except.ok.injEq, Prod.mk.injEq] at hn
        rw [← hn.1, hx]
        simp
      · simp only [Except.ok.injEq, Prod.mk.injEq] at hn
        rw [← hn.1]
        simp
  · intro hc hcl
    simp [NewAPIClient, hc, hcl, Heap.newClient]
  · intro creds hc hcl hm hcfg
    obtain ⟨p, hp⟩ := Option.ne_none_iff_exists'.mp hcfg
    obtain ⟨r, hr, hrc, _, _, _, _, htr, _⟩ :=
      resolve_client_credentials creds retryParams debug none h p hm hp
    refine ⟨{ cfg with
               HTTPClient := r.client,
               Credentials := some r.receiver,
               DefaultHeaders :=
                 some (r.headers.foldl addDefaultHeader (cfg.DefaultHeaders.getD [])) },
      r.heap, ?_, hrc, _, _, _, htr⟩
    simp only [NewAPIClient, hc, hcl, hr, hrc]
  · intro creds hc hcl hm
    have hres : ∃ hs, creds.GetHttpClientAndHeaderOverridesWithBaseClient retryParams debug none h
        = .ok { client := none, headers := hs, receiver := creds, heap := h } := by
      rcases hm with hm | ⟨hm, hcfg⟩
      · exact ⟨[], by simp [Credentials.GetHttpClientAndHeaderOverridesWithBaseClient, hm,
          method_none_ne_clientCredentials, method_none_ne_apiToken]⟩
      · obtain ⟨p, hp⟩ := Option.ne_none_iff_exists'.mp hcfg
        exact ⟨[{ Key := ApiTokenHeaderKey,
                  Value := ApiTokenHeaderValuePrefix ++ " " ++ (h.configs p).ApiToken }],
          by simp [Credentials.GetHttpClientAndHeaderOverridesWithBaseClient,
            Credentials.GetApiTokenHeader, hm, hp, method_apiToken_ne_clientCredentials]⟩
    obtain ⟨hs, hres⟩ := hres
    refine ⟨{ cfg with
               HTTPClient := some h.nextClient,
               Credentials := some creds,
               DefaultHeaders := some (hs.foldl addDefaultHeader (cfg.DefaultHeaders.getD [])) },
      (h.newClient zeroClient).2, ?_, rfl, ?_⟩
    · simp only [NewAPIClient, hc, hcl, hres]
      rfl
    · simp [Heap.newClient]

open credentials in
/-- Witness of C20: the test without Credentials and without HTTP client. -/
theorem C20_witness :
    NewAPIClient { ApiUrl := "http://localhost:8080/", HTTPClient := none, Credentials := none,
                   DefaultHeaders := none } testRetryParams false
        (Heap.uniform Config.zero zeroClient 0)
      = .ok ({ ApiUrl := "http://localhost:8080/", HTTPClient := some 0, Credentials := none,
               DefaultHeaders := none },
             ((Heap.uniform Config.zero zeroClient 0).newClient zeroClient).2) :=
  (C20_http_client_never_nil
    { ApiUrl := "http://localhost:8080/", HTTPClient := none, Credentials := none,
      DefaultHeaders := none } testRetryParams false
    (Heap.uniform Config.zero zeroClient 0)).2.1 rfl rfl

end openfga

/-! ## Theorems: construction without credentials -/

namespace openfga

open credentials in
/-- C21: for every configuration that carries no Credentials and a
caller-supplied HTTP client, NewAPIClient returns the configuration as it was:
that very client is the configuration's HTTP client, the default headers are
untouched (no header override is added), and the heap is unchanged. -/
theorem C21_caller_client_kept_without_credentials (cfg : Configuration)
    (retryParams : retryutils.RetryParams) (debug : Bool) (h : Heap) (b : Nat)
    (hc : cfg.Credentials = none) (hcl : cfg.HTTPClient = some b) :
    ∃ cfg2, NewAPIClient cfg retryParams debug h = .ok (cfg2, h) ∧
      cfg2.HTTPClient = some b ∧ cfg2.DefaultHeaders = cfg.DefaultHeaders ∧ cfg2 = cfg := by
  refine ⟨cfg, ?_, hcl, rfl, rfl⟩
  simp [NewAPIClient, hc, hcl]

open credentials in
/-- Witness of C21: the test with a custom HTTP client only. -/
theorem C21_witness :
    ∃ cfg2, NewAPIClient { ApiUrl := "http://localhost:8080/", HTTPClient := some 0,
                           Credentials := none, DefaultHeaders := none } testRetryParams false
        (Heap.uniform Config.zero customClient 1)
        = .ok (cfg2, Heap.uniform Config.zero customClient 1) ∧
      cfg2.HTTPClient = some 0 ∧ cfg2.DefaultHeaders = none ∧
      cfg2 = { ApiUrl := "http://localhost:8080/", HTTPClient := some 0, Credentials := none,
               DefaultHeaders := none } :=
  C21_caller_client_kept_without_credentials
    { ApiUrl := "http://localhost:8080/", HTTPClient := some 0, Credentials := none,
      DefaultHeaders := none } testRetryParams false (Heap.uniform Config.zero customClient 1) 0
    rfl rfl

end openfga

/-! ## Theorems: issuers of the form host:port -/

namespace url

theorem getSchemeLoop_colon (raw s rest : List Char) (i : Nat) (hi : 0 < i)
    (h : ∀ c ∈ s, isHostNameByte c = true) :
    getSchemeLoop raw i (s ++ ':' :: rest) = .ok (raw.take (i + s.length), rest) := by
  induction s generalizing i with
  | nil =>
    have hi0 : i ≠ 0 := by omega
    simp [getSchemeLoop, isLetter, isDigit, hi0]
  | cons x xs ih =>
    have hx := h x (List.mem_cons_self x xs)
    have hxs : ∀ c ∈ xs, isHostNameByte c = true := fun c hc => h c (List.mem_cons_of_mem x hc)
    have hi0 : i ≠ 0 := by omega
    have hlen : i + (x :: xs).length = i + 1 + xs.length := by simp; omega
    by_cases hl : isLetter x = true
    · simp only [List.cons_append, getSchemeLoop, hl, if_true, hlen]
      exact ih (i + 1) (by omega) hxs
    · have hd : (isDigit x || decide (x = '+') || decide (x = '-') || decide (x = '.')) = true := by
        simp only [isHostNameByte, Bool.or_eq_true, decide_eq_true_eq] at hx ⊢
        tauto
      simp only [List.cons_append, getSchemeLoop, hl, hd, if_true, Bool.false_eq_true, if_false,
        hi0, hlen]
      exact ih (i + 1) (by omega) hxs

/-- A text `name:rest` whose name starts with a letter has the name as its scheme. -/
theorem getScheme_name_colon (x : Char) (s rest : List Char) (hx : isLetter x = true)
    (h : ∀ c ∈ s, isHostNameByte c = true) :
    getScheme (x :: s ++ ':' :: rest) = .ok (x :: s, rest) := by
  have h1 := getSchemeLoop_colon (x :: s ++ ':' :: rest) s rest 1 (by omega) h
  simp only [getScheme, List.cons_append, getSchemeLoop, hx, if_true, Nat.zero_add] at h1 ⊢
  refine Eq.trans h1 ?_
  simp [Nat.add_comm 1 s.length]

/-- A text `name:rest` whose name starts with a digit, `-` or `.` has no scheme. -/
theorem getScheme_no_letter (x : Char) (s : List Char) (hx : isHostNameByte x = true)
    (hl : isLetter x = false) :
    getScheme (x :: s) = .ok ([], x :: s) := by
  have hd : (isDigit x || decide (x = '+') || decide (x = '-') || decide (x = '.')) = true := by
    simp only [isHostNameByte, hl, Bool.false_or, Bool.or_eq_true, decide_eq_true_eq] at hx ⊢
    tauto
  simp [getScheme, getSchemeLoop, hl, hd]

/-- `url.Parse` on `name:digits` where the name starts with a letter: the name is
taken as the scheme and the digits as the opaque part. -/
theorem Parse_name_colon (x : Char) (s rest : List Char) (hx : isLetter x = true)
    (h : ∀ c ∈ s, isHostNameByte c = true) (hr : ∀ c ∈ rest, isHostNameByte c = true) :
    Parse (x :: s ++ ':' :: rest)
      = .ok { URL.zero with Scheme := strings.ToLower (x :: s), Opaque := rest } := by
  have hxb : isHostNameByte x = true := by simp [isHostNameByte, hx]
  have hf := fun c hc => hostNameByte_facts c (hr c hc)
  have hall : ∀ c ∈ x :: s ++ ':' :: rest,
      c ≠ '#' ∧ (c < ' ' || c = Char.ofNat 0x7f) = false := by
    intro c hc
    simp only [List.cons_append, List.mem_cons, List.mem_append] at hc
    rcases hc with rfl | hc | rfl | hc
    · have := hostNameByte_facts c hxb
      exact ⟨this.2.2.2.2.2.2.1, this.2.2.2.2.2.2.2.2.2.2.2⟩
    · have := hostNameByte_facts c (h c hc)
      exact ⟨this.2.2.2.2.2.2.1, this.2.2.2.2.2.2.2.2.2.2.2⟩
    · decide
    · exact ⟨(hf c hc).2.2.2.2.2.2.1, (hf c hc).2.2.2.2.2.2.2.2.2.2.2⟩
  have hhash : strings.Cut (x :: s ++ ':' :: rest) '#' = (x :: s ++ ':' :: rest, [], false) :=
    strings.Cut_eq_of_not_mem '#' _ (fun hm => (hall _ hm).1 rfl)
  have hctl : stringContainsCTLByte (x :: s ++ ':' :: rest) = false :=
    stringContainsCTLByte_eq_false _ (fun c hc => (hall c hc).2)
  have hstar : x :: s ++ ':' :: rest ≠ ['*'] := by
    intro he
    have hlen := congrArg List.length he
    simp at hlen
  have hq : strings.Cut rest '?' = (rest, [], false) :=
    strings.Cut_eq_of_not_mem '?' rest (fun hm => (hf _ hm).2.2.2.2.2.1 rfl)
  have hsuf : strings.HasSuffix rest ['?'] = false :=
    strings.HasSuffix_singleton_eq_false '?' rest (fun hm => (hf _ hm).2.2.2.2.2.1 rfl)
  have hpre : ∀ t, strings.HasPrefix rest ('/' :: t) = false :=
    HasPrefix_slash_eq_false rest (fun c hc => (hf c hc).2.2.2.2.1)
  have hgs := getScheme_name_colon x s rest hx h
  have hlow : strings.ToLower (x :: s) ≠ [] := by simp [strings.ToLower]
  simp only [Parse, hhash, parse, hctl, hstar, hgs, hq, hsuf, hpre]
  simp [hlow, URL.zero, hpre]

/-- `url.Parse` on `name:digits` where the name starts with a digit, `-` or `.`:
there is no scheme, and a colon in the first path segment is refused. -/
theorem Parse_no_letter_colon (x : Char) (s rest : List Char) (hx : isHostNameByte x = true)
    (hl : isLetter x = false)
    (h : ∀ c ∈ s, isHostNameByte c = true) (hr : ∀ c ∈ rest, isHostNameByte c = true) :
    Parse (x :: s ++ ':' :: rest)
      = .error { Op := "parse", URL := x :: s ++ ':' :: rest, Err := .firstPathSegmentColon } := by
  rw [List.cons_append]
  have hall : ∀ c ∈ x :: (s ++ ':' :: rest),
      c ≠ '#' ∧ c ≠ '?' ∧ c ≠ '/' ∧ (c < ' ' || c = Char.ofNat 0x7f) = false := by
    intro c hc
    simp only [List.cons_append, List.mem_cons, List.mem_append] at hc
    rcases hc with rfl | hc | rfl | hc
    · have := hostNameByte_facts c hx
      exact ⟨this.2.2.2.2.2.2.1, this.2.2.2.2.2.1, this.2.2.2.2.1, this.2.2.2.2.2.2.2.2.2.2.2⟩
    · have := hostNameByte_facts c (h c hc)
      exact ⟨this.2.2.2.2.2.2.1, this.2.2.2.2.2.1, this.2.2.2.2.1, this.2.2.2.2.2.2.2.2.2.2.2⟩
    · decide
    · have := hostNameByte_facts c (hr c hc)
      exact ⟨this.2.2.2.2.2.2.1, this.2.2.2.2.2.1, this.2.2.2.2.1, this.2.2.2.2.2.2.2.2.2.2.2⟩
  have hhash : strings.Cut (x :: (s ++ ':' :: rest)) '#' = (x :: (s ++ ':' :: rest), [], false) :=
    strings.Cut_eq_of_not_mem '#' _ (fun hm => (hall _ hm).1 rfl)
  have hq : strings.Cut (x :: (s ++ ':' :: rest)) '?' = (x :: (s ++ ':' :: rest), [], false) :=
    strings.Cut_eq_of_not_mem '?' _ (fun hm => (hall _ hm).2.1 rfl)
  have hslash : strings.Cut (x :: (s ++ ':' :: rest)) '/' = (x :: (s ++ ':' :: rest), [], false) :=
    strings.Cut_eq_of_not_mem '/' _ (fun hm => (hall _ hm).2.2.1 rfl)
  have hsuf : strings.HasSuffix (x :: (s ++ ':' :: rest)) ['?'] = false :=
    strings.HasSuffix_singleton_eq_false '?' _ (fun hm => (hall _ hm).2.1 rfl)
  have hpre : ∀ t, strings.HasPrefix (x :: (s ++ ':' :: rest)) ('/' :: t) = false :=
    HasPrefix_slash_eq_false _ (fun c hc => (hall c hc).2.2.1)
  have hctl : stringContainsCTLByte (x :: (s ++ ':' :: rest)) = false :=
    stringContainsCTLByte_eq_false _ (fun c hc => (hall c hc).2.2.2)
  have hstar : x :: (s ++ ':' :: rest) ≠ ['*'] := by
    intro he
    have hlen := congrArg List.length he
    simp at hlen
  have hcolon : strings.Contains (x :: (s ++ ':' :: rest)) ':' = true := by
    simp [strings.Contains]
  have hgs := getScheme_no_letter x (s ++ ':' :: rest) hx hl
  simp only [Parse, hhash, parse, hctl, hstar, hgs, hq, hsuf, hpre, hslash, hcolon]
  simp [strings.ToLower, URL.zero, hpre, hslash, hcolon]

end url

namespace credentials

theorem validOptionalPort_colon_digits (port : List Char)
    (h : ∀ c ∈ port, url.isDigit c = true) : url.validOptionalPort (':' :: port) = true := by
  simp only [url.validOptionalPort, ne_eq, not_true_eq_false, if_false, List.all_eq_true,
    Bool.not_eq_true', Bool.or_eq_false_iff, decide_eq_false_iff_not]
  intro c hc
  have hd := h c hc
  simp only [url.isDigit, Bool.and_eq_true, decide_eq_true_eq, url.char_le_iff] at hd
  simp only [url.char_lt_iff, gt_iff_lt]
  omega

theorem isDigit_hostNameByte (c : Char) (h : url.isDigit c = true) :
    url.isHostNameByte c = true := by
  simp [url.isHostNameByte, h]

/-- C22, as stated, fails: on "issuer.example:8080" the parser takes
"issuer.example" for the scheme and buildApiTokenURL returns the error
"invalid issuer scheme"; on "127.0.0.1:8080" the first parse fails (a colon in
the first path segment) and buildApiTokenURL returns that error. -/
theorem C22_counterexample :
    buildApiTokenURL "issuer.example:8080"
      = .ok ("", some (.invalidIssuerScheme "issuer.example")) ∧
    buildApiTokenURL "127.0.0.1:8080"
      = .ok ("", some (.parseError
          { Op := "parse", URL := "127.0.0.1:8080".data, Err := .firstPathSegmentColon })) := by
  exact ⟨rfl, rfl⟩

/-- C22, amended: for every host (non-empty, made of ASCII letters, digits, `-`
and `.`) and every port made of digits, buildApiTokenURL on "host:port" without
a scheme returns an error: "invalid issuer scheme" naming the host in lower case
when the host starts with a letter (and is not "http" or "https" in any case),
the parse error "first path segment in URL cannot contain colon" otherwise.
With the scheme written out, "https://host:port" gives
"https://host:port/oauth/token". -/
theorem C22_host_port_needs_scheme (host port : String) (hne : host ≠ "")
    (hh : ∀ c ∈ host.data, url.isHostNameByte c = true)
    (hport : ∀ c ∈ port.data, url.isDigit c = true) :
    (host.data.head?.any url.isLetter = true →
      strings.ToLower host.data ≠ "http".data → strings.ToLower host.data ≠ "https".data →
      buildApiTokenURL (host ++ ":" ++ port)
        = .ok ("", some (.invalidIssuerScheme (String.mk (strings.ToLower host.data))))) ∧
    (host.data.head?.any url.isLetter = false →
      buildApiTokenURL (host ++ ":" ++ port)
        = .ok ("", some (.parseError
            { Op := "parse", URL := (host ++ ":" ++ port).data,
              Err := .firstPathSegmentColon }))) ∧
    buildApiTokenURL ("https://" ++ host ++ ":" ++ port)
      = .ok ("https://" ++ host ++ ":" ++ port ++ "/oauth/token", none) := by
  have hpb : ∀ c ∈ port.data, url.isHostNameByte c = true :=
    fun c hc => isDigit_hostNameByte c (hport c hc)
  have hdata : (host ++ ":" ++ port).data = host.data ++ ':' :: port.data := by
    simp [String.data_append]
  cases hd : host.data with
  | nil => exact absurd (String.ext hd) hne
  | cons x s =>
    have hx : url.isHostNameByte x = true := hh x (by rw [hd]; exact List.mem_cons_self x s)
    have hs : ∀ c ∈ s, url.isHostNameByte c = true :=
      fun c hc => hh c (by rw [hd]; exact List.mem_cons_of_mem x hc)
    refine ⟨?_, ?_, ?_⟩
    · intro hl h1 h2
      simp only [List.head?_cons, Option.any_some] at hl
      have hp := url.Parse_name_colon x s port.data hl hs hpb
      have hne0 : strings.ToLower (x :: s) ≠ [] := by simp [strings.ToLower]
      simp only [buildApiTokenURL, hdata, hd, hp, url.URL.zero]
      simp only [hne0, h1, h2, ne_eq, not_false_eq_true, decide_True, Bool.and_self, if_true,
        if_false]
    · intro hl
      simp only [List.head?_cons, Option.any_some] at hl
      have hp := url.Parse_no_letter_colon x s port.data hx hl hs hpb
      simp only [buildApiTokenURL, hdata, hd, hp]
    · have h3 := buildApiTokenURL_default_path "https" host (":" ++ port) "" (Or.inr rfl) hne hh
        (validOptionalPort_colon_digits port.data hport) (Or.inl rfl)
      have e1 : "https" ++ "://" ++ host ++ (":" ++ port) ++ ""
          = "https://" ++ host ++ ":" ++ port := by
        apply String.ext
        simp [String.data_append]
      have e2 : "https" ++ "://" ++ host ++ (":" ++ port) ++ "/oauth/token"
          = "https://" ++ host ++ ":" ++ port ++ "/oauth/token" := by
        apply String.ext
        simp [String.data_append]
      rw [e1, e2] at h3
      exact h3

/-- Witness of C22 (amended): the host "issuer.example" with the port 8080. -/
theorem C22_witness :
    buildApiTokenURL ("issuer.example" ++ ":" ++ "8080")
      = .ok ("", some (.invalidIssuerScheme
          (String.mk (strings.ToLower "issuer.example".data)))) ∧
    buildApiTokenURL ("https://" ++ "issuer.example" ++ ":" ++ "8080")
      = .ok ("https://" ++ "issuer.example" ++ ":" ++ "8080" ++ "/oauth/token", none) :=
  ⟨(C22_host_port_needs_scheme "issuer.example" "8080" (by decide) (by decide) (by decide)).1
      (by decide) (by decide) (by decide),
   (C22_host_port_needs_scheme "issuer.example" "8080" (by decide) (by decide) (by decide)).2.2⟩

end credentials

/-! ## Theorems: normalizing an issuer twice -/

namespace credentials

/-- The token URL of a plain issuer is a fixed point of `buildApiTokenURL`. -/
theorem buildApiTokenURL_plain_issuer (issuer : String) (hi : IsPlainIssuer issuer) :
    ∃ u, buildApiTokenURL issuer = .ok (u, none) ∧ buildApiTokenURL u = .ok (u, none) := by
  have htok : ∀ c ∈ "/oauth/token".data, url.isPlainPathByte c = true := by decide
  rcases hi with ⟨hne, hh⟩ | ⟨scheme, host, port, path, rfl, hs, hne, hh, hport, hp, hp0⟩
  · refine ⟨"https://" ++ issuer ++ "/oauth/token", buildApiTokenURL_bare_host issuer hne hh, ?_⟩
    have h2 := buildApiTokenURL_plain_path "https" issuer "" "/oauth/token" (Or.inr rfl) hh
      (by decide) htok (by decide) (by decide)
    have e : "https" ++ "://" ++ issuer ++ "" ++ "/oauth/token"
        = "https://" ++ issuer ++ "/oauth/token" := by
      apply String.ext
      simp [String.data_append]
    rw [e] at h2
    exact h2
  · by_cases hdef : path = "" ∨ path = "/"
    · exact ⟨scheme ++ "://" ++ host ++ port ++ "/oauth/token",
        buildApiTokenURL_default_path scheme host port path hs hne hh hport hdef,
        buildApiTokenURL_plain_path scheme host port "/oauth/token" hs hh hport htok
          (by decide) (by decide)⟩
    · have hp1 : path ≠ "/" := fun h => hdef (Or.inr h)
      have hp2 : path.data.head? = some '/' := by
        rcases hp0 with h | h
        · exact absurd (Or.inl h) hdef
        · exact h
      have h1 := buildApiTokenURL_plain_path scheme host port path hs hh hport hp hp2 hp1
      exact ⟨_, h1, h1⟩

theorem Heap.setConfig_self (h : Heap) (p : Nat) (v : Config) (hv : h.configs p = v) :
    h.setConfig p v = h := by
  cases h with
  | mk configs clients nextClient =>
    simp only [Heap.setConfig, Heap.mk.injEq, and_true]
    funext a
    by_cases ha : a = p
    · subst ha
      simp [← hv]
    · simp [ha]

/-- Validation of a client_credentials value whose issuer normalizes to a fixed
point of `buildApiTokenURL`: it succeeds and stores the token URL, and validating
again succeeds and changes nothing. -/
theorem ValidateCredentialsConfig_twice (c : Credentials) (h : Heap) (p : Nat) (u : String)
    (hm : c.Method = CredentialsMethodClientCredentials) (hc : c.Config = some p)
    (hid : (h.configs p).ClientCredentialsClientId ≠ "")
    (hsec : (h.configs p).ClientCredentialsClientSecret ≠ "")
    (hiss : (h.configs p).ClientCredentialsApiTokenIssuer ≠ "")
    (h1 : buildApiTokenURL (h.configs p).ClientCredentialsApiTokenIssuer = .ok (u, none))
    (h2 : buildApiTokenURL u = .ok (u, none)) :
    c.ValidateCredentialsConfig h
      = .ok (none, h.setConfig p { h.configs p with ClientCredentialsApiTokenIssuer := u }) ∧
    c.ValidateCredentialsConfig
        (h.setConfig p { h.configs p with ClientCredentialsApiTokenIssuer := u })
      = .ok (none, h.setConfig p { h.configs p with ClientCredentialsApiTokenIssuer := u }) := by
  have hu : u ≠ "" := by
    rintro rfl
    have h0 : buildApiTokenURL "" = .ok ("https://oauth/token", none) := rfl
    rw [h0] at h2
    simp only [Except.ok.injEq, Prod.mk.injEq, and_true] at h2
    revert h2
    decide
  have hne : CredentialsMethodClientCredentials ≠ CredentialsMethodApiToken :=
    fun e => method_apiToken_ne_clientCredentials e.symm
  constructor
  · simp [Credentials.ValidateCredentialsConfig, hm, hc, hne, hid, hsec, hiss, h1]
  · have hcfg : (h.setConfig p { h.configs p with ClientCredentialsApiTokenIssuer := u }).configs p
        = { h.configs p with ClientCredentialsApiTokenIssuer := u } := by
      simp [Heap.setConfig]
    simp only [Credentials.ValidateCredentialsConfig, hm, hc, hne, hcfg]
    simp [hid, hsec, hu, h2]
    apply Heap.setConfig_self
    simp [Heap.setConfig]

/-- C23, as stated, fails: the issuer `http://[::1%25é]` (an IPv6 literal whose
zone holds the two bytes of "é") is accepted, and buildApiTokenURL returns
"http://[::1%25%C3%A9]/oauth/token", the host written back with the two bytes
escaped; on that result buildApiTokenURL returns the parse error
`invalid URL escape "%C3"`.  A client_credentials value with that issuer
validates once, and the second validation returns the error and leaves the
Config as the first one wrote it. -/
theorem C23_counterexample :
    buildApiTokenURL
        (String.mk ("http://[::1%25".data ++ [Char.ofNat 0xC3, Char.ofNat 0xA9] ++ "]".data))
      = .ok ("http://[::1%25%C3%A9]/oauth/token", none) ∧
    buildApiTokenURL "http://[::1%25%C3%A9]/oauth/token"
      = .ok ("", some (.parseError
          { Op := "parse", URL := "http://[::1%25%C3%A9]/oauth/token".data,
            Err := .EscapeError "%C3".data })) ∧
    (Credentials.mk CredentialsMethodClientCredentials (some 0) none).ValidateCredentialsConfig
        (Heap.uniform
          { testClientCredentialsConfig with
            ClientCredentialsApiTokenIssuer :=
              String.mk ("http://[::1%25".data ++ [Char.ofNat 0xC3, Char.ofNat 0xA9]
                ++ "]".data) } zeroClient 0)
      = .ok (none,
          (Heap.uniform
            { testClientCredentialsConfig with
              ClientCredentialsApiTokenIssuer :=
                String.mk ("http://[::1%25".data ++ [Char.ofNat 0xC3, Char.ofNat 0xA9]
                  ++ "]".data) } zeroClient 0).setConfig 0
            { testClientCredentialsConfig with
              ClientCredentialsApiTokenIssuer := "http://[::1%25%C3%A9]/oauth/token" }) ∧
    (Credentials.mk CredentialsMethodClientCredentials (some 0) none).ValidateCredentialsConfig
        ((Heap.uniform
            { testClientCredentialsConfig with
              ClientCredentialsApiTokenIssuer :=
                String.mk ("http://[::1%25".data ++ [Char.ofNat 0xC3, Char.ofNat 0xA9]
                  ++ "]".data) } zeroClient 0).setConfig 0
            { testClientCredentialsConfig with
              ClientCredentialsApiTokenIssuer := "http://[::1%25%C3%A9]/oauth/token" })
      = .ok (some (.parseError
          { Op := "parse", URL := "http://[::1%25%C3%A9]/oauth/token".data,
            Err := .EscapeError "%C3".data }),
          (Heap.uniform
            { testClientCredentialsConfig with
              ClientCredentialsApiTokenIssuer :=
                String.mk ("http://[::1%25".data ++ [Char.ofNat 0xC3, Char.ofNat 0xA9]
                  ++ "]".data) } zeroClient 0).setConfig 0
            { testClientCredentialsConfig with
              ClientCredentialsApiTokenIssuer := "http://[::1%25%C3%A9]/oauth/token" }) := by
  exact ⟨rfl, rfl, rfl, rfl⟩

/-- C23, amended: for every issuer in plain form (a bare host name, or
`scheme://host[:port]` with the scheme http or https and a path that is empty or
starts with `/` and needs no escaping), buildApiTokenURL succeeds with a result u
on which it succeeds again and returns u; hence, for every client_credentials
Credentials whose Config holds a client id, a client secret and such an issuer,
ValidateCredentialsConfig succeeds and stores u, and a second call succeeds and
leaves the heap, the stored issuer included, unchanged. -/
theorem C23_normalization_idempotent_on_plain_issuers (issuer : String)
    (hi : IsPlainIssuer issuer) :
    ∃ u, buildApiTokenURL issuer = .ok (u, none) ∧ buildApiTokenURL u = .ok (u, none) ∧
      ∀ (c : Credentials) (h : Heap) (p : Nat),
        c.Method = CredentialsMethodClientCredentials → c.Config = some p →
        (h.configs p).ClientCredentialsClientId ≠ "" →
        (h.configs p).ClientCredentialsClientSecret ≠ "" →
        (h.configs p).ClientCredentialsApiTokenIssuer = issuer →
        ∃ h2, c.ValidateCredentialsConfig h = .ok (none, h2) ∧
          (h2.configs p).ClientCredentialsApiTokenIssuer = u ∧
          c.ValidateCredentialsConfig h2 = .ok (none, h2) := by
  obtain ⟨u, h1, h2⟩ := buildApiTokenURL_plain_issuer issuer hi
  refine ⟨u, h1, h2, ?_⟩
  intro c h p hm hc hid hsec hiss
  have hne : issuer ≠ "" := by
    rcases hi with ⟨hne, _⟩ | ⟨scheme, host, port, path, rfl, hs, _⟩
    · exact hne
    · intro he
      have hd := congrArg String.data he
      rcases hs with rfl | rfl <;> simp [String.data_append] at hd
  have ht := ValidateCredentialsConfig_twice c h p u hm hc hid hsec (by rw [hiss]; exact hne)
    (by rw [hiss]; exact h1) h2
  exact ⟨_, ht.1, by simp [Heap.setConfig], ht.2⟩

/-- Witness of C23 (amended): the issuer of the tests, "issuer.test.example", and
the client-credentials Config of the tests. -/
theorem C23_witness :
    IsPlainIssuer "issuer.test.example" ∧
    ∃ u, buildApiTokenURL "issuer.test.example" = .ok (u, none) ∧
      buildApiTokenURL u = .ok (u, none) ∧
      ∃ h2, (Credentials.mk CredentialsMethodClientCredentials (some 0)
              none).ValidateCredentialsConfig
            (Heap.uniform testClientCredentialsConfig zeroClient 0) = .ok (none, h2) ∧
        (h2.configs 0).ClientCredentialsApiTokenIssuer = u ∧
        (Credentials.mk CredentialsMethodClientCredentials (some 0)
              none).ValidateCredentialsConfig h2 = .ok (none, h2) :=
  ⟨Or.inl ⟨by decide, by decide⟩,
   (C23_normalization_idempotent_on_plain_issuers "issuer.test.example"
      (Or.inl ⟨by decide, by decide⟩)).elim
    fun u hu => ⟨u, hu.1, hu.2.1,
      hu.2.2 (Credentials.mk CredentialsMethodClientCredentials (some 0) none)
        (Heap.uniform testClientCredentialsConfig zeroClient 0) 0 rfl rfl (by decide) (by decide)
        rfl⟩⟩

end credentials

/-! ## Theorems: what validation and NewCredentials leave alone -/

namespace credentials

/-- The outcomes of `ValidateCredentialsConfig`: a panic, an error with the heap
untouched, or success with at most the issuer field of the receiver's Config
rewritten, and that only for method client_credentials. -/
theorem ValidateCredentialsConfig_cases (c : Credentials) (h : Heap) :
    (∃ e, c.ValidateCredentialsConfig h = .error e) ∨
    (∃ err, c.ValidateCredentialsConfig h = .ok (some err, h)) ∨
    (c.ValidateCredentialsConfig h = .ok (none, h) ∧
      c.Method ≠ CredentialsMethodClientCredentials) ∨
    (∃ p tokenURL, c.Method = CredentialsMethodClientCredentials ∧ c.Config = some p ∧
      buildApiTokenURL (h.configs p).ClientCredentialsApiTokenIssuer = .ok (tokenURL, none) ∧
      c.ValidateCredentialsConfig h
        = .ok (none, h.setConfig p
            { h.configs p with ClientCredentialsApiTokenIssuer := tokenURL })) := by
  unfold Credentials.ValidateCredentialsConfig
  simp only
  split
  · exact Or.inr (Or.inl ⟨_, rfl⟩)
  · split
    · rename_i hcc
      cases hcfg : c.Config with
      | none => exact Or.inr (Or.inl ⟨_, rfl⟩)
      | some p =>
        simp only
        split
        · exact Or.inr (Or.inl ⟨_, rfl⟩)
        · cases hb : buildApiTokenURL (h.configs p).ClientCredentialsApiTokenIssuer with
          | error e => exact Or.inl ⟨e, rfl⟩
          | ok res =>
            obtain ⟨u, e⟩ := res
            cases e with
            | some err => exact Or.inr (Or.inl ⟨err, rfl⟩)
            | none => exact Or.inr (Or.inr (Or.inr ⟨p, u, hcc, rfl, hb, rfl⟩))
    · rename_i hcc
      exact Or.inr (Or.inr (Or.inl ⟨rfl, hcc⟩))

/-- C24: whenever ValidateCredentialsConfig returns an error, the heap, and so
every field of every Config, is unchanged; whenever it succeeds, every field
other than ClientCredentialsApiTokenIssuer of every Config is unchanged, every
other object is unchanged, and for any method other than client_credentials the
heap, the issuer field included, is unchanged. -/
theorem C24_validation_atomic (c : Credentials) (h : Heap) :
    (∀ err h2, c.ValidateCredentialsConfig h = .ok (some err, h2) → h2 = h) ∧
    (∀ h2, c.ValidateCredentialsConfig h = .ok (none, h2) →
      (∀ q, (h2.configs q).ApiToken = (h.configs q).ApiToken ∧
        (h2.configs q).ClientCredentialsApiAudience = (h.configs q).ClientCredentialsApiAudience ∧
        (h2.configs q).ClientCredentialsClientId = (h.configs q).ClientCredentialsClientId ∧
        (h2.configs q).ClientCredentialsClientSecret
          = (h.configs q).ClientCredentialsClientSecret ∧
        (h2.configs q).ClientCredentialsScopes = (h.configs q).ClientCredentialsScopes ∧
        (c.Config ≠ some q →
          (h2.configs q).ClientCredentialsApiTokenIssuer
            = (h.configs q).ClientCredentialsApiTokenIssuer)) ∧
      h2.clients = h.clients ∧ h2.nextClient = h.nextClient ∧
      (c.Method ≠ CredentialsMethodClientCredentials → h2 = h)) := by
  rcases ValidateCredentialsConfig_cases c h with ⟨e, he⟩ | ⟨err0, he⟩ | ⟨he, hm⟩ |
    ⟨p, u, hm, hc, hb, he⟩
  · rw [he]
    exact ⟨fun _ _ hx => (by cases hx), fun _ hx => (by cases hx)⟩
  · rw [he]
    refine ⟨?_, ?_⟩
    · intro err h2 hx
      simp only [Except.ok.injEq, Prod.mk.injEq] at hx
      exact hx.2.symm
    · intro h2 hx
      simp at hx
  · rw [he]
    refine ⟨fun _ _ hx => (by simp at hx), ?_⟩
    intro h2 hx
    simp only [Except.ok.injEq, Prod.mk.injEq, true_and] at hx
    subst hx
    exact ⟨fun q => ⟨rfl, rfl, rfl, rfl, rfl, fun _ => rfl⟩, rfl, rfl, fun _ => rfl⟩
  · rw [he]
    refine ⟨fun _ _ hx => (by simp at hx), ?_⟩
    intro h2 hx
    simp only [Except.ok.injEq, Prod.mk.injEq, true_and] at hx
    subst hx
    refine ⟨?_, rfl, rfl, fun hne => absurd hm hne⟩
    intro q
    by_cases hq : q = p
    · subst hq
      simp [Heap.setConfig, hc]
    · have hq2 : c.Config ≠ some q → True := fun _ => trivial
      simp [Heap.setConfig, hq]

/-- Witness of C24: validation of the client-credentials Config of the tests
succeeds, rewrites the issuer and leaves the client id as it was. -/
theorem C24_witness :
    (Credentials.mk CredentialsMethodClientCredentials (some 0) none).ValidateCredentialsConfig
        (Heap.uniform testClientCredentialsConfig zeroClient 0)
      = .ok (none, (Heap.uniform testClientCredentialsConfig zeroClient 0).setConfig 0
          { testClientCredentialsConfig with
            ClientCredentialsApiTokenIssuer := "https://issuer.test.example/oauth/token" }) ∧
    (((Heap.uniform testClientCredentialsConfig zeroClient 0).setConfig 0
        { testClientCredentialsConfig with
          ClientCredentialsApiTokenIssuer := "https://issuer.test.example/oauth/token" }).configs
          0).ClientCredentialsClientId
      = ((Heap.uniform testClientCredentialsConfig zeroClient 0).configs 0).ClientCredentialsClientId :=
  ⟨rfl,
   (((C24_validation_atomic (Credentials.mk CredentialsMethodClientCredentials (some 0) none)
      (Heap.uniform testClientCredentialsConfig zeroClient 0)).2
    ((Heap.uniform testClientCredentialsConfig zeroClient 0).setConfig 0
      { testClientCredentialsConfig with
        ClientCredentialsApiTokenIssuer := "https://issuer.test.example/oauth/token" })
    rfl).1 0).2.2.1⟩

end credentials

namespace credentials

/-- C25: for every Method value other than "api_token" and "client_credentials"
(the empty string and unrecognised strings included) and every Config, nil
included, NewCredentials succeeds and leaves the heap alone; on the Credentials
it returns, and on the input Credentials itself, the resolver returns the base
client unchanged with no header overrides, and changes nothing. -/
theorem C25_other_methods_behave_like_none (config : Credentials) (h : Heap)
    (retryParams : retryutils.RetryParams) (debug : Bool) (baseClient : Option Nat)
    (h1 : config.Method ≠ CredentialsMethodApiToken)
    (h2 : config.Method ≠ CredentialsMethodClientCredentials) :
    ∃ creds, NewCredentials config h = .ok ((some creds, none), h) ∧
      creds = { Method := if config.Method = "" then CredentialsMethodNone else config.Method,
                Config := config.Config, Context := none } ∧
      creds.GetHttpClientAndHeaderOverridesWithBaseClient retryParams debug baseClient h
        = .ok { client := baseClient, headers := [], receiver := creds, heap := h } ∧
      config.GetHttpClientAndHeaderOverridesWithBaseClient retryParams debug baseClient h
        = .ok { client := baseClient, headers := [], receiver := config, heap := h } := by
  by_cases h0 : config.Method = ""
  · refine ⟨_, ?_, rfl, ?_, ?_⟩
    · simp [NewCredentials, Credentials.ValidateCredentialsConfig, h0,
        method_none_ne_apiToken, method_none_ne_clientCredentials]
    · simp [Credentials.GetHttpClientAndHeaderOverridesWithBaseClient, h0,
        method_none_ne_apiToken, method_none_ne_clientCredentials]
    · simp [Credentials.GetHttpClientAndHeaderOverridesWithBaseClient, h1, h2]
  · refine ⟨_, ?_, rfl, ?_, ?_⟩
    · simp [NewCredentials, Credentials.ValidateCredentialsConfig, h0, h1, h2]
    · simp [Credentials.GetHttpClientAndHeaderOverridesWithBaseClient, h0, h1, h2]
    · simp [Credentials.GetHttpClientAndHeaderOverridesWithBaseClient, h1, h2]

/-- Witness of C25: the unrecognised method "basic" with a nil Config. -/
theorem C25_witness :
    ∃ creds, NewCredentials (Credentials.mk "basic" none none)
        (Heap.uniform Config.zero customClient 1)
        = .ok ((some creds, none), Heap.uniform Config.zero customClient 1) ∧
      creds = { Method := if "basic" = "" then CredentialsMethodNone else "basic",
                Config := none, Context := none } ∧
      creds.GetHttpClientAndHeaderOverridesWithBaseClient testRetryParams false (some 0)
          (Heap.uniform Config.zero customClient 1)
        = .ok { client := some 0, headers := [], receiver := creds,
                heap := Heap.uniform Config.zero customClient 1 } ∧
      (Credentials.mk "basic" none none).GetHttpClientAndHeaderOverridesWithBaseClient
          testRetryParams false (some 0) (Heap.uniform Config.zero customClient 1)
        = .ok { client := some 0, headers := [], receiver := Credentials.mk "basic" none none,
                heap := Heap.uniform Config.zero customClient 1 } :=
  C25_other_methods_behave_like_none (Credentials.mk "basic" none none)
    (Heap.uniform Config.zero customClient 1) testRetryParams false (some 0)
    (by decide) (by decide)

end credentials

namespace credentials

/-- What NewCredentials returns on success: the copy of Method (none for the
empty string) and Config with a nil Context, which passed validation. -/
theorem NewCredentials_success (config : Credentials) (h h2 : Heap) (creds : Credentials)
    (hn : NewCredentials config h = .ok ((some creds, none), h2)) :
    creds = { Method := if config.Method = "" then CredentialsMethodNone else config.Method,
              Config := config.Config, Context := none } ∧
    creds.ValidateCredentialsConfig h = .ok (none, h2) := by
  have hcreds : (if config.Method = "" then
        ({ Method := CredentialsMethodNone, Config := config.Config, Context := none } : Credentials)
      else { Method := config.Method, Config := config.Config, Context := none })
      = { Method := if config.Method = "" then CredentialsMethodNone else config.Method,
          Config := config.Config, Context := none } := by
    split <;> rfl
  simp only [NewCredentials, hcreds] at hn
  cases hv : Credentials.ValidateCredentialsConfig
      { Method := if config.Method = "" then CredentialsMethodNone else config.Method,
        Config := config.Config, Context := none } h with
  | error e => simp [hv] at hn
  | ok res =>
    obtain ⟨e, h3⟩ := res
    cases e with
    | some err => simp [hv] at hn
    | none =>
      simp only [hv, Except.ok.injEq, Prod.mk.injEq, Option.some.injEq, and_true] at hn
      obtain ⟨hc, hh⟩ := hn
      subst hc hh
      exact ⟨rfl, hv⟩

/-- C26: for every input on which NewCredentials succeeds, the returned
Credentials has the input's Config pointer, the input's Method (none when the
input's was empty) and a nil Context, whatever Context the input carried; and
when its method is client_credentials, resolving it sets its Context to the
background context and gives the OAuth2 component the background context (with
the base client stored in it when there is one). -/
theorem C26_new_credentials_copies_method_and_config (config : Credentials) (h h2 : Heap)
    (creds : Credentials)
    (hn : NewCredentials config h = .ok ((some creds, none), h2)) :
    creds.Config = config.Config ∧
    creds.Method = (if config.Method = "" then CredentialsMethodNone else config.Method) ∧
    creds.Context = none ∧
    (creds.Method = CredentialsMethodClientCredentials →
      ∀ (retryParams : retryutils.RetryParams) (debug : Bool) (baseClient : Option Nat),
      ∃ r base conf,
        creds.GetHttpClientAndHeaderOverridesWithBaseClient retryParams debug baseClient h2
          = .ok r ∧
        r.receiver.Context = some context.Background ∧
        (r.heap.clients h2.nextClient).Transport
          = .oauth2 base conf
              (match baseClient with
               | some b => context.WithValue context.Background .HTTPClient (some b)
               | none => context.Background)) := by
  obtain ⟨hc, hv⟩ := NewCredentials_success config h h2 creds hn
  refine ⟨by rw [hc], by rw [hc], by rw [hc], ?_⟩
  intro hm retryParams debug baseClient
  obtain ⟨p, hp⟩ := Config_of_validated creds h h2 hv (Or.inr hm)
  have hctx : creds.Context = none := by rw [hc]
  obtain ⟨r, hr, _, _, hrec, _, _, htr, _⟩ :=
    resolve_client_credentials creds retryParams debug baseClient h2 p hm hp
  rw [hctx] at htr hrec
  cases baseClient with
  | none => exact ⟨r, _, _, hr, by rw [hrec]; rfl, htr⟩
  | some b => exact ⟨r, _, _, hr, by rw [hrec]; rfl, htr⟩

/-- Witness of C26: the client-credentials Config of the tests, passed in with a
caller context. -/
theorem C26_witness :
    (Credentials.mk CredentialsMethodClientCredentials (some 0) none).Config
      = (Credentials.mk CredentialsMethodClientCredentials (some 0)
          (some (context.Context.caller 7))).Config ∧
    (Credentials.mk CredentialsMethodClientCredentials (some 0) none).Method
      = (if (Credentials.mk CredentialsMethodClientCredentials (some 0)
              (some (context.Context.caller 7))).Method = "" then CredentialsMethodNone
         else (Credentials.mk CredentialsMethodClientCredentials (some 0)
              (some (context.Context.caller 7))).Method) ∧
    (Credentials.mk CredentialsMethodClientCredentials (some 0) none).Context = none :=
  ⟨(C26_new_credentials_copies_method_and_config
      (Credentials.mk CredentialsMethodClientCredentials (some 0)
        (some (context.Context.caller 7)))
      (Heap.uniform testClientCredentialsConfig zeroClient 0)
      ((Heap.uniform testClientCredentialsConfig zeroClient 0).setConfig 0
        { testClientCredentialsConfig with
          ClientCredentialsApiTokenIssuer := "https://issuer.test.example/oauth/token" })
      (Credentials.mk CredentialsMethodClientCredentials (some 0) none) rfl).1,
   (C26_new_credentials_copies_method_and_config
      (Credentials.mk CredentialsMethodClientCredentials (some 0)
        (some (context.Context.caller 7)))
      (Heap.uniform testClientCredentialsConfig zeroClient 0)
      ((Heap.uniform testClientCredentialsConfig zeroClient 0).setConfig 0
        { testClientCredentialsConfig with
          ClientCredentialsApiTokenIssuer := "https://issuer.test.example/oauth/token" })
      (Credentials.mk CredentialsMethodClientCredentials (some 0) none) rfl).2.1,
   rfl⟩

end credentials
